import Mathlib

/-!
# Scene graph and offscreen render target

A shallow embedding of `GameObject.cpp` (scene nodes with a transform
hierarchy) and `FrameBufferObject.cpp` (an offscreen render target).

* Scene nodes live in a heap addressed by pointers (natural numbers); a
  nullable pointer is an `Option`.  Matrices are 4x4 matrices over a
  commutative ring `K`; the arithmetic of `float` is idealised as exact.
* The render target is a record of its member variables; the graphics
  driver is a small abstract machine that hands out object names, keeps
  the sets of live names and records every call it receives.
-/

set_option autoImplicit false

namespace Tutorial2

/-! ## Vectors, matrices and the GLM routines used by the scene graph -/

abbrev Vec3 (K : Type) := Fin 3 → K

abbrev Vec4 (K : Type) := Fin 4 → K

abbrev Mat4 (K : Type) := Matrix (Fin 4) (Fin 4) K

/-- The scalar routines of the maths library that `glm::rotate` and
`glm::radians` rely on. -/
structure Trig (K : Type) where
  cos : K → K
  sin : K → K
  radians : K → K

/-- Modelled from the spec: `glm::translate(v)` of the GLM headers (not among
the sources), the translation matrix `T` of the local transform `T·R·S`: the
identity with `v` in the fourth column. -/
def glmTranslate {K : Type} [CommRing K] (v : Vec3 K) : Mat4 K :=
  !![1, 0, 0, v 0;
     0, 1, 0, v 1;
     0, 0, 1, v 2;
     0, 0, 0, 1]

/-- Modelled from the spec: `glm::scale(v)` of the GLM headers (not among the
sources), the scale matrix `S` of the local transform `T·R·S`: the diagonal
matrix of `v` and `1`. -/
def glmScale {K : Type} [CommRing K] (v : Vec3 K) : Mat4 K :=
  !![v 0, 0, 0, 0;
     0, v 1, 0, 0;
     0, 0, v 2, 0;
     0, 0, 0, 1]

/-- Modelled from the spec: `glm::rotate(angle, axis)` of the GLM headers (not
among the sources), an elementary rotation of the spec's `Rz·Ry·Rx`.  With
`c = cos angle`, `s = sin angle` and `t = (1 - c) * axis` the upper 3x3 block is
the axis-angle matrix and the fourth row and column are those of the identity.
Every call site passes a unit axis, on which GLM's `normalize` is the
identity. -/
def glmRotate {K : Type} [CommRing K] (T : Trig K) (angle : K) (axis : Vec3 K) : Mat4 K :=
  let c := T.cos angle
  let s := T.sin angle
  let t : Vec3 K := fun i => (1 - c) * axis i
  !![c + t 0 * axis 0, t 1 * axis 0 - s * axis 2, t 2 * axis 0 + s * axis 1, 0;
     t 0 * axis 1 + s * axis 2, c + t 1 * axis 1, t 2 * axis 1 - s * axis 0, 0;
     t 0 * axis 2 - s * axis 1, t 1 * axis 2 + s * axis 0, c + t 2 * axis 2, 0;
     0, 0, 0, 1]

/-- The `glm::vec4(v, 1.0f)` constructor. -/
def vec4of {K : Type} [CommRing K] (v : Vec3 K) : Vec4 K := ![v 0, v 1, v 2, 1]

/-- The conversion `glm::vec3(glm::vec4)`: the first three components. -/
def vec3of {K : Type} (v : Vec4 K) : Vec3 K := ![v 0, v 1, v 2]

/-- The fourth column of a matrix, `m[3]` in GLM's column-major indexing. -/
def translationColumn {K : Type} (m : Mat4 K) : Vec3 K := ![m 0 3, m 1 3, m 2 3]

/-! ## GameObject -/

/-- The member variables of `GameObject`.  Pointers to other game objects
are heap addresses; `mesh` and `material` are plain resource handles. -/
structure GameObject (K : Type) where
  name : String
  m_pScale : K
  colour : Vec4 K
  m_pLocalPosition : Vec3 K
  mesh : Nat
  material : Nat
  m_pParent : Option Nat
  m_pRotX : K
  m_pRotY : K
  m_pRotZ : K
  m_pChildren : List Nat
  m_pLocalRotation : Mat4 K
  m_pLocalTransformMatrix : Mat4 K
  m_pLocalToWorldMatrix : Mat4 K

/-- The store of game objects: what each address points to. -/
abbrev Heap (K : Type) := Nat → GameObject K

/-- Embedding of `GameObject::GameObject(position, mesh, material)`.  The three matrices
are not set by the initialiser list; `mem` supplies what they hold. -/
def GameObject.create {K : Type} [CommRing K] (position : Vec3 K) (mesh material : Nat)
    (mem : GameObject K) : GameObject K :=
  { mem with
    name := ""
    m_pScale := 1
    colour := ![0, 0, 0, 0]
    m_pLocalPosition := position
    mesh := mesh
    material := material
    m_pParent := none
    m_pRotX := 0
    m_pRotY := 0
    m_pRotZ := 0
    m_pChildren := [] }

/-- Embedding of `GameObject::setPosition`. -/
def GameObject.setPosition {K : Type} (o : GameObject K) (newPosition : Vec3 K) : GameObject K :=
  { o with m_pLocalPosition := newPosition }

/-- Embedding of `GameObject::setRotationAngleX`. -/
def GameObject.setRotationAngleX {K : Type} (o : GameObject K) (newAngle : K) : GameObject K :=
  { o with m_pRotX := newAngle }

/-- Embedding of `GameObject::setRotationAngleY`. -/
def GameObject.setRotationAngleY {K : Type} (o : GameObject K) (newAngle : K) : GameObject K :=
  { o with m_pRotY := newAngle }

/-- Embedding of `GameObject::setRotationAngleZ`. -/
def GameObject.setRotationAngleZ {K : Type} (o : GameObject K) (newAngle : K) : GameObject K :=
  { o with m_pRotZ := newAngle }

/-- Embedding of `GameObject::setScale`. -/
def GameObject.setScale {K : Type} (o : GameObject K) (newScale : K) : GameObject K :=
  { o with m_pScale := newScale }

/-- Embedding of `GameObject::getLocalToWorldMatrix`. -/
def GameObject.getLocalToWorldMatrix {K : Type} (o : GameObject K) : Mat4 K :=
  o.m_pLocalToWorldMatrix

/-- Embedding of `GameObject::setParent`. -/
def GameObject.setParent {K : Type} (o : GameObject K) (newParent : Option Nat) : GameObject K :=
  { o with m_pParent := newParent }

/-- Embedding of `GameObject::isRoot`. -/
def GameObject.isRoot {K : Type} (o : GameObject K) : Bool :=
  match o.m_pParent with
  | some _ => false
  | none => true

/-- A call of a method of the object at address `p` that touches only that
object. -/
def Heap.call {K : Type} (h : Heap K) (p : Nat) (f : GameObject K → GameObject K) : Heap K :=
  Function.update h p (f (h p))

/-- The rotation matrix `rz * ry * rx` that `update` stores in
`m_pLocalRotation` (lines 52-57). -/
def localRotationOf {K : Type} [CommRing K] (T : Trig K) (o : GameObject K) : Mat4 K :=
  let rx := glmRotate T (T.radians o.m_pRotX) ![1, 0, 0]
  let ry := glmRotate T (T.radians o.m_pRotY) ![0, 1, 0]
  let rz := glmRotate T (T.radians o.m_pRotZ) ![0, 0, 1]
  rz * ry * rx

/-- The matrix `tran * m_pLocalRotation * scal` that `update` stores in
`m_pLocalTransformMatrix` (lines 60-69). -/
def localTransformOf {K : Type} [CommRing K] (T : Trig K) (o : GameObject K) : Mat4 K :=
  let tran := glmTranslate o.m_pLocalPosition
  let scal := glmScale ![o.m_pScale, o.m_pScale, o.m_pScale]
  tran * localRotationOf T o * scal

/-- The body of `GameObject::update` before the loop over the children
(lines 52-74): the object at `p` with its three matrices recomputed, the
world matrix from the parent's current world matrix. -/
def updateTransforms {K : Type} [CommRing K] (T : Trig K) (h : Heap K) (p : Nat) : GameObject K :=
  let o := h p
  let o1 := { o with m_pLocalRotation := localRotationOf T o }
  let o2 := { o1 with m_pLocalTransformMatrix := localTransformOf T o }
  match o2.m_pParent with
  | some parent =>
      { o2 with m_pLocalToWorldMatrix :=
          (h parent).getLocalToWorldMatrix * o2.m_pLocalTransformMatrix }
  | none => { o2 with m_pLocalToWorldMatrix := o2.m_pLocalTransformMatrix }

/-- Embedding of `GameObject::update(dt)` on the object at `p`.  The recursion follows
child pointers, so it is bounded by `fuel`: `none` means the bound was
reached.  The loop over `m_pChildren` visits the children in order; no call
of `update` writes a child list (`update_frame`), so the list read at the
start of the loop is the one the loop indexes. -/
def update {K : Type} [CommRing K] (T : Trig K) (dt : K) : Nat → Heap K → Nat → Option (Heap K)
  | 0, _, _ => none
  | fuel + 1, h, p =>
      let h1 := Function.update h p (updateTransforms T h p)
      (h1 p).m_pChildren.foldlM (fun acc child => update T dt fuel acc child) h1

/-- Embedding of `GameObject::addChild(newChild)` on the object at `this`. -/
def addChild {K : Type} (h : Heap K) (this : Nat) (newChild : Option Nat) : Heap K :=
  match newChild with
  | some c =>
      let h1 := h.call this (fun o => { o with m_pChildren := o.m_pChildren ++ [c] })
      h1.call c (fun o => o.setParent (some this))
  | none => h

/-- The loop of `GameObject::removeChild` from index `i` on: an element equal
to `rip` is erased in place and the index is still incremented afterwards.
`fuel` bounds the number of iterations. -/
def removeChildLoop (rip : Option Nat) : Nat → Nat → List Nat → List Nat
  | 0, _, children => children
  | fuel + 1, i, children =>
      if i < children.length then
        if children.get? i = rip then
          removeChildLoop rip fuel (i + 1) (children.eraseIdx i)
        else
          removeChildLoop rip fuel (i + 1) children
      else children

/-- Embedding of `GameObject::removeChild(rip)` on one object.  The index grows by one in
every iteration, so `m_pChildren.size()` iterations always suffice. -/
def GameObject.removeChild {K : Type} (o : GameObject K) (rip : Option Nat) : GameObject K :=
  { o with m_pChildren := removeChildLoop rip o.m_pChildren.length 0 o.m_pChildren }

/-- Embedding of `GameObject::getWorldPosition` on the object at `p`. -/
def getWorldPosition {K : Type} [CommRing K] (h : Heap K) (p : Nat) : Vec3 K :=
  match (h p).m_pParent with
  | some parent =>
      vec3of (Matrix.mulVec (h parent).getLocalToWorldMatrix (vec4of (h p).m_pLocalPosition))
  | none => (h p).m_pLocalPosition

/-! ### Well-formed scene trees -/

/-- The objects reachable from `p` through child lists. -/
inductive InTree {K : Type} (h : Heap K) (p : Nat) : Nat → Prop
  | root : InTree h p p
  | child {b q : Nat} : InTree h p b → q ∈ (h b).m_pChildren → InTree h p q

/-- A well-formed tree of depth at most `d` below `p`: every child listed by
a node of it names that node as its parent, and child lists are empty at
depth `d` (so no path of child pointers comes back to a node). -/
def WellFormed {K : Type} (h : Heap K) : Nat → Nat → Prop
  | 0, p => (h p).m_pChildren = []
  | d + 1, p => ∀ c ∈ (h p).m_pChildren, (h c).m_pParent = some p ∧ WellFormed h d c

instance WellFormed.decidable {K : Type} (h : Heap K) :
    ∀ (d p : Nat), Decidable (WellFormed h d p)
  | 0, p => by unfold WellFormed; infer_instance
  | d + 1, p => by
      unfold WellFormed
      have := WellFormed.decidable h d
      infer_instance

/-- The world matrix `update` stores (lines 71-74): the parent's present
world matrix times the local transform, or the local transform alone. -/
def worldOf {K : Type} [CommRing K] (T : Trig K) (h : Heap K) (p : Nat) : Mat4 K :=
  match (h p).m_pParent with
  | some parent => (h parent).getLocalToWorldMatrix * localTransformOf T (h p)
  | none => localTransformOf T (h p)

/-- The stored (caller-set) part of an object: the three matrices that
`update` derives are blanked out. -/
def GameObject.stored {K : Type} [CommRing K] (o : GameObject K) : GameObject K :=
  { o with m_pLocalRotation := 0, m_pLocalTransformMatrix := 0, m_pLocalToWorldMatrix := 0 }

/-- Two heaps that differ at most in derived matrices. -/
def SameShape {K : Type} [CommRing K] (h h' : Heap K) : Prop :=
  ∀ q, (h' q).stored = (h q).stored

/-- The matrices of the object at `q` are up to date: recomputing them as
`update` does (from the stored fields and the parent's present world matrix)
changes nothing. -/
def Updated {K : Type} [CommRing K] (T : Trig K) (h : Heap K) (q : Nat) : Prop :=
  h q = updateTransforms T h q

/-- The five setters of `GameObject` with their argument. -/
inductive Setter (K : Type) where
  | position (newPosition : Vec3 K)
  | rotationAngleX (newAngle : K)
  | rotationAngleY (newAngle : K)
  | rotationAngleZ (newAngle : K)
  | scale (newScale : K)

/-- Run a setter on an object. -/
def Setter.apply {K : Type} (s : Setter K) (o : GameObject K) : GameObject K :=
  match s with
  | .position v => o.setPosition v
  | .rotationAngleX a => o.setRotationAngleX a
  | .rotationAngleY a => o.setRotationAngleY a
  | .rotationAngleZ a => o.setRotationAngleZ a
  | .scale k => o.setScale k

/-! ### World rotation -/

/-- Embedding of `GameObject::getWorldRotation` on the object at `p`.  The
recursion follows parent pointers, so it is bounded by `fuel`: `none` means
the bound was reached. -/
def getWorldRotation {K : Type} [CommRing K] : Nat → Heap K → Nat → Option (Mat4 K)
  | 0, _, _ => none
  | fuel + 1, h, p =>
      match (h p).m_pParent with
      | some parent =>
          (getWorldRotation fuel h parent).map (fun r => r * (h p).m_pLocalRotation)
      | none => some (h p).m_pLocalRotation

/-- The parent chain of `p`: `ups` lists the ancestors of `p` from its parent
up to a root, each the parent of the one before.  Such a list exists exactly
when following parent pointers from `p` reaches an object without parent. -/
def UpChain {K : Type} (h : Heap K) : Nat → List Nat → Prop
  | p, [] => (h p).m_pParent = none
  | p, q :: rest => (h p).m_pParent = some q ∧ UpChain h q rest

instance UpChain.decidable {K : Type} (h : Heap K) :
    ∀ (p : Nat) (ups : List Nat), Decidable (UpChain h p ups)
  | p, [] => by unfold UpChain; infer_instance
  | p, q :: rest => by
      unfold UpChain
      have := UpChain.decidable h q rest
      infer_instance

/-- The product of a list of matrices taken from the left, as a chain of
calls `(...((m0 * m1) * m2) ...) * mn` computes it. -/
def orderedProduct {K : Type} [CommRing K] : List (Mat4 K) → Mat4 K
  | [] => 1
  | m :: ms => ms.foldl (fun acc x => acc * x) m

/-- The local rotations stored along the chain from the root down to `p`,
root first. -/
def rotationsToRoot {K : Type} (h : Heap K) (p : Nat) (ups : List Nat) : List (Mat4 K) :=
  (p :: ups).reverse.map (fun a => (h a).m_pLocalRotation)

/-! ### A sample scene -/

/-- Polynomial stand-ins for the cosine, the sine and the degree-to-radian
conversion on the rationals; exact at angle `0`. -/
def rationalTrig : Trig ℚ :=
  { cos := fun x => 1 - x ^ 2 / 2 + x ^ 4 / 24
    sin := fun x => x - x ^ 3 / 6 + x ^ 5 / 120
    radians := fun x => x * (355 / 113) / 180 }

/-- Storage whose matrices are all zero. -/
def blankObject : GameObject ℚ :=
  { name := "", m_pScale := 0, colour := ![0, 0, 0, 0], m_pLocalPosition := ![0, 0, 0],
    mesh := 0, material := 0, m_pParent := none, m_pRotX := 0, m_pRotY := 0, m_pRotZ := 0,
    m_pChildren := [], m_pLocalRotation := 0, m_pLocalTransformMatrix := 0,
    m_pLocalToWorldMatrix := 0 }

/-- Freshly constructed objects at every address, the one at `p` at
position `(p, 2, 3)`. -/
def freshScene : Heap ℚ := fun p => GameObject.create ![(p : ℚ), 2, 3] 0 0 blankObject

/-- The scene built by `0.addChild(1); 0.addChild(2); 1.addChild(3)` with
the scale of `0` set to `2` and that of `3` set to `5`. -/
def sampleScene : Heap ℚ :=
  let h := addChild freshScene 0 (some 1)
  let h := addChild h 0 (some 2)
  let h := addChild h 1 (some 3)
  let h := h.call 0 (fun o => o.setScale 2)
  h.call 3 (fun o => o.setScale 5)

/-- A single root at position `(1, 2, 3)` with scale `2` and no rotation. -/
def scaledRoot : Heap ℚ :=
  fun _ => (GameObject.create ![1, 2, 3] 0 0 blankObject).setScale 2

/-- The scene built by `0.addChild(1); 0.addChild(2); 0.addChild(1)`: the
child `1` is listed twice. -/
def duplicateScene : Heap ℚ :=
  let h := addChild freshScene 0 (some 1)
  let h := addChild h 0 (some 2)
  addChild h 0 (some 1)

/-! ## The graphics driver -/

def MAX_BUFFERS : Nat := 16

def GL_COLOR_ATTACHMENT0 : Nat := 0x8CE0

def GL_DEPTH_ATTACHMENT : Nat := 0x8D00

/-- The driver calls made by `FrameBufferObject`, with the arguments that
matter for object lifetimes.  `drawBuffers n bufs` carries the count passed
and the content of the `MAX_BUFFERS` slots of the array passed. -/
inductive GLCall where
  | genFramebuffers (name : Nat)
  | bindFramebuffer (framebuffer : Nat)
  | genTextures (names : List Nat)
  | bindTexture (texture : Nat)
  | texImage2D (depth : Bool) (width height : Nat)
  | texParameteri
  | framebufferTexture2D (attachment texture : Nat)
  | drawBuffers (n : Int) (bufs : List Nat)
  | checkFramebufferStatus
  | viewport (width height : Int)
  | activeTexture (unit : Nat)
  | deleteTextures (names : List Nat)
  | deleteFramebuffers (names : List Nat)
  deriving DecidableEq, Repr

/-- A release call: `glDeleteTextures` or `glDeleteFramebuffers`. -/
def GLCall.isRelease : GLCall → Bool
  | .deleteTextures _ => true
  | .deleteFramebuffers _ => true
  | _ => false

/-- A call that attaches a texture to one of the `MAX_BUFFERS` colour
attachment slots. -/
def GLCall.isColourAttach : GLCall → Bool
  | .framebufferTexture2D a _ =>
      decide (GL_COLOR_ATTACHMENT0 ≤ a ∧ a < GL_COLOR_ATTACHMENT0 + MAX_BUFFERS)
  | _ => false

/-- The driver state: the highest texture and framebuffer names handed out
so far, the live (generated and not yet deleted) names, and the calls
received, oldest first. -/
structure GPU where
  lastTexture : Nat
  lastFramebuffer : Nat
  textures : List Nat
  framebuffers : List Nat
  calls : List GLCall
  deriving DecidableEq, Repr

/-- A driver on which nothing has been created yet. -/
def GPU.initial : GPU :=
  { lastTexture := 0, lastFramebuffer := 0, textures := [], framebuffers := [], calls := [] }

/-- Names handed out are at most the recorded maxima, so new names are unused. -/
def GPU.Consistent (g : GPU) : Prop :=
  (∀ t ∈ g.textures, t ≤ g.lastTexture) ∧ (∀ f ∈ g.framebuffers, f ≤ g.lastFramebuffer)

instance GPU.Consistent.decidable (g : GPU) : Decidable g.Consistent := by
  unfold GPU.Consistent; infer_instance

/-- Record a call that changes no object lifetime. -/
def GPU.issue (g : GPU) (c : GLCall) : GPU :=
  { g with calls := g.calls ++ [c] }

/-- The name `glGenTextures(n, ..)` writes into entry `i` of its output
array: the names handed out are consecutive, non-zero and unused. -/
def GPU.textureName (g : GPU) (i : Nat) : Nat := g.lastTexture + 1 + i

/-- The names `glGenTextures(n, ..)` returns. -/
def GPU.newTextures (g : GPU) (n : Nat) : List Nat :=
  (List.range n).map (fun i => g.textureName i)

/-- Driver call `glGenTextures(n, ..)`. -/
def GPU.genTextures (g : GPU) (n : Nat) : GPU :=
  { g with
    lastTexture := g.lastTexture + n
    textures := g.textures ++ g.newTextures n
    calls := g.calls ++ [.genTextures (g.newTextures n)] }

/-- Driver call `glGenFramebuffers(1, ..)`; the name returned is `g.lastFramebuffer + 1`. -/
def GPU.genFramebuffer (g : GPU) : GPU :=
  { g with
    lastFramebuffer := g.lastFramebuffer + 1
    framebuffers := g.framebuffers ++ [g.lastFramebuffer + 1]
    calls := g.calls ++ [.genFramebuffers (g.lastFramebuffer + 1)] }

/-- Driver call `glDeleteTextures` on the given names; names that are not live are
ignored by the driver. -/
def GPU.deleteTextures (g : GPU) (names : List Nat) : GPU :=
  { g with
    textures := g.textures.filter (fun t => !names.contains t)
    calls := g.calls ++ [.deleteTextures names] }

/-- Driver call `glDeleteFramebuffers` on the given names. -/
def GPU.deleteFramebuffers (g : GPU) (names : List Nat) : GPU :=
  { g with
    framebuffers := g.framebuffers.filter (fun f => !names.contains f)
    calls := g.calls ++ [.deleteFramebuffers names] }

/-! ## FrameBufferObject -/

/-- The member variables of `FrameBufferObject`.  The two arrays of
`MAX_BUFFERS` entries are maps from index to content. -/
structure FrameBufferObject where
  handle : Nat
  colourTexHandles : Nat → Nat
  numColourTex : Nat
  depthTexHandle : Nat
  width : Nat
  height : Nat
  bufferAttachments : Nat → Nat
  numBuffers : Int

/-- The first `n` entries of an array. -/
def firstEntries (a : Nat → Nat) (n : Nat) : List Nat := (List.range n).map a

/-- The call `memset(a, 0, MAX_BUFFERS)` on an array of 4-byte entries: the
count is in bytes, so the first `MAX_BUFFERS / 4` entries become zero. -/
def memsetZero (a : Nat → Nat) : Nat → Nat :=
  fun i => if i < MAX_BUFFERS / 4 then 0 else a i

/-- Embedding of `FrameBufferObject::FrameBufferObject()` run on storage holding `mem`:
`handle`, `width` and `height` are left as they are. -/
def FrameBufferObject.construct (mem : FrameBufferObject) : FrameBufferObject :=
  { mem with
    depthTexHandle := 0
    numColourTex := 0
    colourTexHandles := memsetZero mem.colourTexHandles
    bufferAttachments := memsetZero mem.bufferAttachments
    numBuffers := 0 }

/-- One iteration of the loop of `createFrameBuffer` (lines 41-53). -/
def attachColour (i : Nat) (sg : FrameBufferObject × GPU) : FrameBufferObject × GPU :=
  let s := sg.1
  let g := sg.2
  let g := g.issue (.bindTexture (s.colourTexHandles i))
  let g := g.issue (.texImage2D false s.width s.height)
  let g := g.issue .texParameteri
  let g := g.issue .texParameteri
  let g := g.issue (.framebufferTexture2D (GL_COLOR_ATTACHMENT0 + i) (s.colourTexHandles i))
  let s := { s with bufferAttachments := Function.update s.bufferAttachments i (GL_COLOR_ATTACHMENT0 + i) }
  let s := { s with numBuffers := s.numBuffers + 1 }
  (s, g)

/-- The loop of `createFrameBuffer` (line 39): `k` iterations from index `i`. -/
def attachColourLoop : Nat → Nat → FrameBufferObject × GPU → FrameBufferObject × GPU
  | 0, _, sg => sg
  | k + 1, i, sg => attachColourLoop k (i + 1) (attachColour i sg)

/-- The calls made by `k` iterations of the loop of `createFrameBuffer` from
index `i`, given the texture handles and the dimensions. -/
def loopCalls (handles : Nat → Nat) (width height : Nat) : Nat → Nat → List GLCall
  | 0, _ => []
  | k + 1, i =>
      [.bindTexture (handles i), .texImage2D false width height, .texParameteri, .texParameteri,
        .framebufferTexture2D (GL_COLOR_ATTACHMENT0 + i) (handles i)] ++
        loopCalls handles width height k (i + 1)

/-- The start of `createFrameBuffer` (lines 23-37): store the dimensions,
clamp the attachment count, generate and bind the framebuffer, generate the
colour textures.  The clamp also prints a diagnostic. -/
def createBegin (s : FrameBufferObject) (g : GPU) (fboWidth fboHeight numColourBuffers : Nat) :
    FrameBufferObject × GPU :=
  let s := { s with width := fboWidth, height := fboHeight, numColourTex := numColourBuffers }
  let s := if s.numColourTex > MAX_BUFFERS then { s with numColourTex := MAX_BUFFERS } else s
  let s := { s with handle := g.lastFramebuffer + 1 }
  let g := g.genFramebuffer
  let g := g.issue (.bindFramebuffer s.handle)
  let s := { s with colourTexHandles :=
    fun i => if i < s.numColourTex then g.textureName i else s.colourTexHandles i }
  let g := g.genTextures s.numColourTex
  (s, g)

/-- The depth branch of `createFrameBuffer` (lines 57-66). -/
def createDepth (sg : FrameBufferObject × GPU) : FrameBufferObject × GPU :=
  let s := sg.1
  let g := sg.2
  let s := { s with depthTexHandle := g.textureName 0 }
  let g := g.genTextures 1
  let g := g.issue (.bindTexture s.depthTexHandle)
  let g := g.issue (.texImage2D true s.width s.height)
  let g := g.issue .texParameteri
  let g := g.issue .texParameteri
  let g := g.issue (.framebufferTexture2D GL_DEPTH_ATTACHMENT s.depthTexHandle)
  (s, g)

/-- The end of `createFrameBuffer` (lines 69-76): declare the draw buffers,
check completeness (the check only prints a diagnostic), unbind. -/
def createFinish (sg : FrameBufferObject × GPU) : FrameBufferObject × GPU :=
  let s := sg.1
  let g := sg.2
  let g := g.issue (.drawBuffers s.numBuffers (firstEntries s.bufferAttachments MAX_BUFFERS))
  let g := g.issue .checkFramebufferStatus
  let g := g.issue (.bindFramebuffer 0)
  (s, g)

/-- Embedding of `FrameBufferObject::createFrameBuffer`: the four parts of its body in
order. -/
def FrameBufferObject.createFrameBuffer (s : FrameBufferObject) (g : GPU)
    (fboWidth fboHeight numColourBuffers : Nat) (useDepth : Bool) : FrameBufferObject × GPU :=
  let sg := createBegin s g fboWidth fboHeight numColourBuffers
  let sg := attachColourLoop sg.1.numColourTex 0 sg
  let sg := if useDepth then createDepth sg else sg
  createFinish sg

/-- Embedding of `FrameBufferObject::bindFrameBufferForDrawing`. -/
def FrameBufferObject.bindFrameBufferForDrawing (s : FrameBufferObject) (g : GPU) :
    FrameBufferObject × GPU :=
  let g := g.issue (.bindFramebuffer s.handle)
  let g := g.issue (.viewport s.width s.height)
  (s, g)

/-- Embedding of `FrameBufferObject::unbindFrameBuffer`. -/
def FrameBufferObject.unbindFrameBuffer (s : FrameBufferObject) (g : GPU)
    (backBufferWidth backBufferHeight : Int) : FrameBufferObject × GPU :=
  let g := g.issue (.bindFramebuffer 0)
  let g := g.issue (.viewport backBufferWidth backBufferHeight)
  (s, g)

/-- Embedding of `FrameBufferObject::destroy`. -/
def FrameBufferObject.destroy (s : FrameBufferObject) (g : GPU) : FrameBufferObject × GPU :=
  let sg : FrameBufferObject × GPU :=
    if s.numColourTex > 0 then
      ({ s with colourTexHandles := memsetZero s.colourTexHandles, numColourTex := 0 },
        g.deleteTextures (firstEntries s.colourTexHandles s.numColourTex))
    else (s, g)
  let sg : FrameBufferObject × GPU :=
    if sg.1.depthTexHandle > 0 then
      ({ sg.1 with depthTexHandle := 0 }, sg.2.deleteTextures [sg.1.depthTexHandle])
    else sg
  if sg.1.handle ≠ 0 then (sg.1, sg.2.deleteFramebuffers [sg.1.handle]) else sg

/-- An operation a caller can apply to a render target. -/
inductive FboOp where
  | create (width height numColourBuffers : Nat) (useDepth : Bool)
  | destroy
  | bindForDrawing
  | unbind (backBufferWidth backBufferHeight : Int)

/-- Apply one operation. -/
def FboOp.run (op : FboOp) (sg : FrameBufferObject × GPU) : FrameBufferObject × GPU :=
  match op with
  | .create w h n d => sg.1.createFrameBuffer sg.2 w h n d
  | .destroy => sg.1.destroy sg.2
  | .bindForDrawing => sg.1.bindFrameBufferForDrawing sg.2
  | .unbind w h => sg.1.unbindFrameBuffer sg.2 w h

/-- Apply a sequence of operations, first to last. -/
def runOps (ops : List FboOp) (sg : FrameBufferObject × GPU) : FrameBufferObject × GPU :=
  ops.foldl (fun acc op => op.run acc) sg

/-- Storage in which every member of a `FrameBufferObject` is zero. -/
def zeroStorage : FrameBufferObject :=
  { handle := 0, colourTexHandles := fun _ => 0, numColourTex := 0, depthTexHandle := 0,
    width := 0, height := 0, bufferAttachments := fun _ => 0, numBuffers := 0 }


/-- A target constructed on zeroed storage and created as 256x256 with two
colour attachments and a depth attachment, on a driver with nothing else. -/
def createdTarget : FrameBufferObject × GPU :=
  zeroStorage.construct.createFrameBuffer GPU.initial 256 256 2 true

/-- The target `createdTarget` after one `destroy()`. -/
def destroyedOnce : FrameBufferObject × GPU := createdTarget.1.destroy createdTarget.2

/-- The target `createdTarget` after two `destroy()` calls. -/
def destroyedTwice : FrameBufferObject × GPU := destroyedOnce.1.destroy destroyedOnce.2

/-- The target after `createFrameBuffer; destroy; createFrameBuffer`, each
creation asking for two colour attachments. -/
def recreatedTarget : FrameBufferObject × GPU :=
  runOps [.create 256 256 2 true, .destroy, .create 256 256 2 true]
    (zeroStorage.construct, GPU.initial)

/-- A target constructed on storage whose `handle` word holds `7`. -/
def staleHandleTarget : FrameBufferObject :=
  FrameBufferObject.construct { zeroStorage with handle := 7 }

/-! ## Scene trees: reachability and acyclicity -/

section SceneGraph

variable {K : Type}

theorem InTree.cons {h : Heap K} {p c q : Nat} (hc : c ∈ (h p).m_pChildren)
    (hq : InTree h c q) : InTree h p q := by
  induction hq with
  | root => exact InTree.child InTree.root hc
  | child _ hmem ih => exact InTree.child ih hmem

theorem InTree.cases_top {h : Heap K} {p q : Nat} (hq : InTree h p q) :
    q = p ∨ ∃ c ∈ (h p).m_pChildren, InTree h c q := by
  induction hq with
  | root => exact Or.inl rfl
  | @child b q hb hmem ih =>
    rcases ih with rfl | ⟨c, hc, hcb⟩
    · exact Or.inr ⟨q, hmem, InTree.root⟩
    · exact Or.inr ⟨c, hc, InTree.child hcb hmem⟩

theorem SameShape.refl [CommRing K] (h : Heap K) : SameShape h h := fun _ => rfl

theorem SameShape.trans [CommRing K] {h1 h2 h3 : Heap K} (a : SameShape h1 h2) (b : SameShape h2 h3) :
    SameShape h1 h3 := fun q => (b q).trans (a q)

theorem SameShape.children [CommRing K] {h h' : Heap K} (a : SameShape h h') (q : Nat) :
    (h' q).m_pChildren = (h q).m_pChildren := by
  have e := congrArg GameObject.m_pChildren (a q)
  exact e

theorem SameShape.parent [CommRing K] {h h' : Heap K} (a : SameShape h h') (q : Nat) :
    (h' q).m_pParent = (h q).m_pParent := by
  have e := congrArg GameObject.m_pParent (a q)
  exact e

theorem SameShape.inTree [CommRing K] {h h' : Heap K} (a : SameShape h h') {p q : Nat}
    (hq : InTree h p q) : InTree h' p q := by
  induction hq with
  | root => exact InTree.root
  | child _ hmem ih => exact InTree.child ih (by rw [a.children]; exact hmem)

theorem SameShape.symm [CommRing K] {h h' : Heap K} (a : SameShape h h') : SameShape h' h :=
  fun q => (a q).symm

theorem SameShape.wellFormed [CommRing K] {h h' : Heap K} (a : SameShape h h') :
    ∀ (d p : Nat), WellFormed h d p → WellFormed h' d p
  | 0, p, hw => by
      unfold WellFormed at hw ⊢
      rw [a.children]; exact hw
  | d + 1, p, hw => by
      unfold WellFormed at hw ⊢
      intro c hc
      rw [a.children] at hc
      exact ⟨by rw [a.parent]; exact (hw c hc).1, SameShape.wellFormed a d c (hw c hc).2⟩

/-- Inside a well-formed tree every node heads a well-formed tree that is no
deeper. -/
theorem WellFormed.of_inTree {h : Heap K} {d p q : Nat} (hw : WellFormed h d p)
    (hq : InTree h p q) : ∃ e, e ≤ d ∧ WellFormed h e q := by
  induction hq with
  | root => exact ⟨d, le_refl d, hw⟩
  | @child b q _ hmem ih =>
    obtain ⟨e, he, hwb⟩ := ih
    cases e with
    | zero =>
      unfold WellFormed at hwb
      rw [hwb] at hmem
      exact absurd hmem (List.not_mem_nil q)
    | succ e =>
      unfold WellFormed at hwb
      exact ⟨e, by omega, (hwb q hmem).2⟩

/-- Inside a well-formed tree a listed child names its holder as parent. -/
theorem WellFormed.parent_of_child {h : Heap K} {d p b q : Nat} (hw : WellFormed h d p)
    (hb : InTree h p b) (hmem : q ∈ (h b).m_pChildren) : (h q).m_pParent = some b := by
  obtain ⟨e, _, hwb⟩ := hw.of_inTree hb
  cases e with
  | zero =>
    unfold WellFormed at hwb
    rw [hwb] at hmem
    exact absurd hmem (List.not_mem_nil q)
  | succ e =>
    unfold WellFormed at hwb
    exact (hwb q hmem).1

/-- No node of a well-formed tree is reachable from one of its own children. -/
theorem WellFormed.acyclic {h : Heap K} :
    ∀ (d p c : Nat), WellFormed h d p → c ∈ (h p).m_pChildren → ¬ InTree h c p := by
  intro d
  induction d using Nat.strong_induction_on with
  | _ d ih =>
    intro p c hw hc hcp
    cases d with
    | zero =>
      unfold WellFormed at hw
      rw [hw] at hc
      exact absurd hc (List.not_mem_nil c)
    | succ d =>
      have hwc : WellFormed h d c := by
        unfold WellFormed at hw
        exact (hw c hc).2
      obtain ⟨e, he, hwp⟩ := hwc.of_inTree hcp
      exact ih e (by omega) p c hwp hc hcp

theorem WellFormed.mono {h : Heap K} : ∀ (d p : Nat), WellFormed h d p → WellFormed h (d + 1) p
  | 0, p, hw => by
      unfold WellFormed at hw
      unfold WellFormed
      intro c hc
      rw [hw] at hc
      exact absurd hc (List.not_mem_nil c)
  | d + 1, p, hw => by
      unfold WellFormed at hw
      unfold WellFormed
      intro c hc
      exact ⟨(hw c hc).1, WellFormed.mono d c (hw c hc).2⟩

/-! ## What one call of `update` does -/

theorem updateTransforms_stored [CommRing K] (T : Trig K) (h : Heap K) (p : Nat) :
    (updateTransforms T h p).stored = (h p).stored := by
  unfold updateTransforms
  dsimp only
  split <;> rfl

theorem sameShape_updateTransforms [CommRing K] (T : Trig K) (h : Heap K) (p : Nat) :
    SameShape h (Function.update h p (updateTransforms T h p)) := by
  intro q
  by_cases hq : q = p
  · subst hq
    rw [Function.update_same]
    exact updateTransforms_stored T h q
  · rw [Function.update_noteq hq]

theorem updateTransforms_eq [CommRing K] (T : Trig K) (h : Heap K) (p : Nat) :
    updateTransforms T h p =
      { h p with
        m_pLocalRotation := localRotationOf T (h p)
        m_pLocalTransformMatrix := localTransformOf T (h p)
        m_pLocalToWorldMatrix := worldOf T h p } := by
  unfold updateTransforms worldOf
  cases hpar : (h p).m_pParent <;> simp only [hpar]

theorem worldOf_congr [CommRing K] (T : Trig K) {h h' : Heap K} {q : Nat} (hq : h' q = h q)
    (hp : ∀ P, (h q).m_pParent = some P → h' P = h P) : worldOf T h' q = worldOf T h q := by
  unfold worldOf
  rw [hq]
  cases hpar : (h q).m_pParent with
  | none => rfl
  | some P => simp only [hp P hpar]

/-- Matrices that are up to date stay so when neither the object nor its
parent is written. -/
theorem Updated.of_unchanged [CommRing K] {T : Trig K} {h h' : Heap K} {q : Nat}
    (hu : Updated T h q) (hq : h' q = h q)
    (hp : ∀ P, (h q).m_pParent = some P → h' P = h P) : Updated T h' q := by
  unfold Updated at hu ⊢
  rw [updateTransforms_eq] at hu ⊢
  rw [worldOf_congr T hq hp, hq]
  exact hu

/-- Right after its own matrices are recomputed an object is up to date,
unless it is its own parent. -/
theorem updated_updateTransforms [CommRing K] (T : Trig K) (h : Heap K) (p : Nat)
    (hp : (h p).m_pParent ≠ some p) :
    Updated T (Function.update h p (updateTransforms T h p)) p := by
  have hw : worldOf T (Function.update h p (updateTransforms T h p)) p = worldOf T h p := by
    unfold worldOf
    rw [Function.update_same, updateTransforms_eq]
    cases hpar : (h p).m_pParent with
    | none => rfl
    | some P =>
      have hne : P ≠ p := fun e => hp (by rw [hpar, e])
      simp only [Function.update_noteq hne]
      rfl
  unfold Updated
  rw [updateTransforms_eq T (Function.update h p (updateTransforms T h p)) p, hw,
    Function.update_same, updateTransforms_eq]
  rfl

/-- What a terminating call `update` on `c` guarantees: only derived
matrices change, nothing outside the tree of `c` changes, and (when the
parent of `c` lies outside that tree) every node of the tree is up to date. -/
theorem update_children [CommRing K] (T : Trig K) (dt : K) (f d : Nat) (h : Heap K) (p : Nat)
    (hw : WellFormed h (d + 1) p)
    (ih : ∀ (g : Heap K) (c : Nat), c ∈ (h p).m_pChildren → WellFormed g d c →
      ∃ g', update T dt f g c = some g' ∧ SameShape g g' ∧
        (∀ q, ¬ InTree g c q → g' q = g q) ∧
        ((∀ P, (g c).m_pParent = some P → ¬ InTree g c P) →
          ∀ q, InTree g c q → Updated T g' q)) :
    ∀ (cs : List Nat) (hcur : Heap K), (∀ c ∈ cs, c ∈ (h p).m_pChildren) → SameShape h hcur →
      ∃ h', cs.foldlM (fun acc child => update T dt f acc child) hcur = some h' ∧
        SameShape h h' ∧
        (∀ q, (∀ c ∈ cs, ¬ InTree h c q) → h' q = hcur q) ∧
        (∀ c ∈ cs, ∀ q, InTree h c q → Updated T h' q) := by
  have hw' := hw
  unfold WellFormed at hw'
  intro cs
  induction cs with
  | nil =>
    intro hcur _ hS
    exact ⟨hcur, rfl, hS, fun _ _ => rfl, fun c hc => absurd hc (List.not_mem_nil c)⟩
  | cons c rest ihl =>
    intro hcur hcs hS
    have hc : c ∈ (h p).m_pChildren := hcs c (List.mem_cons_self c rest)
    have hwc : WellFormed h d c := (hw' c hc).2
    have hpc : (h c).m_pParent = some p := (hw' c hc).1
    obtain ⟨h1, e1, s1, out1, upd1⟩ := ih hcur c hc (hS.wellFormed d c hwc)
    have upd1' : ∀ q, InTree h c q → Updated T h1 q := by
      intro q hq
      refine upd1 ?_ q (hS.inTree hq)
      intro P hP hin
      rw [hS.parent, hpc] at hP
      cases hP
      exact WellFormed.acyclic (d + 1) p c hw hc (hS.symm.inTree hin)
    obtain ⟨h', e2, s2, out2, upd2⟩ :=
      ihl h1 (fun x hx => hcs x (List.mem_cons_of_mem c hx)) (hS.trans s1)
    refine ⟨h', ?_, s2, ?_, ?_⟩
    · rw [List.foldlM_cons, e1]
      exact e2
    · intro q hq
      rw [out2 q (fun x hx => hq x (List.mem_cons_of_mem c hx))]
      exact out1 q (fun hin => hq c (List.mem_cons_self c rest) (hS.symm.inTree hin))
    · intro x hx q hq
      by_cases ex : ∃ y ∈ rest, InTree h y q
      · obtain ⟨y, hy, hyq⟩ := ex
        exact upd2 y hy q hyq
      · have hx' : x ∈ (h p).m_pChildren := hcs x hx
        have hwx : WellFormed h d x := (hw' x hx').2
        have hq1 : Updated T h1 q := by
          rcases List.mem_cons.mp hx with rfl | hxr
          · exact upd1' q hq
          · exact absurd ⟨x, hxr, hq⟩ ex
        have notin : ∀ y ∈ rest, ¬ InTree h y q := fun y hy hyq => ex ⟨y, hy, hyq⟩
        refine hq1.of_unchanged (out2 q notin) ?_
        intro P hP
        rw [s1.parent, hS.parent] at hP
        refine out2 P ?_
        intro y hy hyP
        have hy' : y ∈ (h p).m_pChildren := hcs y (List.mem_cons_of_mem c hy)
        cases hq with
        | root =>
          rw [(hw' x hx').1] at hP
          cases hP
          exact WellFormed.acyclic (d + 1) p y hw hy' hyP
        | @child b _ hb hmem =>
          rw [hwx.parent_of_child hb hmem] at hP
          cases hP
          exact notin y hy (InTree.child hyP hmem)

/-- One level of `update`: from the guarantee for the children to the
guarantee for the parent. -/
theorem update_step [CommRing K] (T : Trig K) (dt : K) (f d : Nat) (h : Heap K) (p : Nat)
    (hw : WellFormed h (d + 1) p)
    (ih : ∀ (g : Heap K) (c : Nat), c ∈ (h p).m_pChildren → WellFormed g d c →
      ∃ g', update T dt f g c = some g' ∧ SameShape g g' ∧
        (∀ q, ¬ InTree g c q → g' q = g q) ∧
        ((∀ P, (g c).m_pParent = some P → ¬ InTree g c P) →
          ∀ q, InTree g c q → Updated T g' q)) :
    ∃ h', update T dt (f + 1) h p = some h' ∧ SameShape h h' ∧
      (∀ q, ¬ InTree h p q → h' q = h q) ∧
      ((∀ P, (h p).m_pParent = some P → ¬ InTree h p P) →
        ∀ q, InTree h p q → Updated T h' q) := by
  have s0 := sameShape_updateTransforms T h p
  have hch : (Function.update h p (updateTransforms T h p) p).m_pChildren = (h p).m_pChildren :=
    s0.children p
  obtain ⟨h', e, s, out, upd⟩ :=
    update_children T dt f d h p hw ih (h p).m_pChildren
      (Function.update h p (updateTransforms T h p)) (fun _ hc => hc) s0
  have notp : ∀ c ∈ (h p).m_pChildren, ¬ InTree h c p :=
    fun c hc => WellFormed.acyclic (d + 1) p c hw hc
  refine ⟨h', ?_, s, ?_, ?_⟩
  · unfold update
    dsimp only
    rw [hch]
    exact e
  · intro q hq
    have hne : q ≠ p := fun e => hq (e ▸ InTree.root)
    rw [out q (fun c hc hin => hq (InTree.cons hc hin)), Function.update_noteq hne]
  · intro hpar q hq
    rcases hq.cases_top with rfl | ⟨c, hc, hcq⟩
    · have hself : (h q).m_pParent ≠ some q := fun e => hpar q e InTree.root
      refine (updated_updateTransforms T h q hself).of_unchanged (out q notp) ?_
      intro P hP
      rw [s0.parent] at hP
      exact out P (fun c hc hin => hpar P hP (InTree.cons hc hin))
    · exact upd c hc q hcq

/-- On a well-formed tree of depth at most `d`, `update` returns with any
fuel above `d`; it changes derived matrices only, and only inside the tree,
and leaves every node of the tree up to date when the parent of `p` is
outside the tree. -/
theorem update_spec [CommRing K] (T : Trig K) (dt : K) :
    ∀ (d f : Nat) (h : Heap K) (p : Nat), WellFormed h d p → d < f →
      ∃ h', update T dt f h p = some h' ∧ SameShape h h' ∧
        (∀ q, ¬ InTree h p q → h' q = h q) ∧
        ((∀ P, (h p).m_pParent = some P → ¬ InTree h p P) →
          ∀ q, InTree h p q → Updated T h' q) := by
  intro d
  induction d with
  | zero =>
    intro f h p hw hf
    obtain ⟨f, rfl⟩ : ∃ k, f = k + 1 := ⟨f - 1, by omega⟩
    refine update_step T dt f 0 h p (WellFormed.mono 0 p hw) ?_
    intro g c hc
    unfold WellFormed at hw
    rw [hw] at hc
    exact absurd hc (List.not_mem_nil c)
  | succ d ih =>
    intro f h p hw hf
    obtain ⟨f, rfl⟩ : ∃ k, f = k + 1 := ⟨f - 1, by omega⟩
    exact update_step T dt f d h p hw (fun g c _ hg => ih f g c hg (by omega))

/-- No call of `update` writes a parent pointer, a child list or any other
caller-set field: whenever it returns, the heap has the same shape. -/
theorem update_frame [CommRing K] (T : Trig K) (dt : K) :
    ∀ (f : Nat) (h h' : Heap K) (p : Nat), update T dt f h p = some h' → SameShape h h' := by
  intro f
  induction f with
  | zero =>
    intro h h' p e
    unfold update at e
    cases e
  | succ f ih =>
    intro h h' p e
    unfold update at e
    dsimp only at e
    have key : ∀ (cs : List Nat) (g : Heap K), SameShape h g →
        cs.foldlM (fun acc child => update T dt f acc child) g = some h' → SameShape h h' := by
      intro cs
      induction cs with
      | nil =>
        intro g hg e
        cases e
        exact hg
      | cons c rest ihl =>
        intro g hg e
        rw [List.foldlM_cons] at e
        cases e1 : update T dt f g c with
        | none => rw [e1] at e; cases e
        | some g1 =>
          rw [e1] at e
          exact ihl g1 (hg.trans (ih g g1 c e1)) e
    exact key _ _ (sameShape_updateTransforms T h p) e

/-! ## The world-transform invariant -/

/-- C1: on a well-formed scene tree below a root `R` (every listed child
names its holder as parent, child lists end within depth `d`), `update(dt)`
on `R` returns for any fuel above `d`; afterwards the world matrix of `R` is
its local transform matrix, and every node `N` of the tree whose parent is `P`
has world matrix `P.world * N.localTransform`. -/
theorem update_world_transform_invariant [CommRing K] (T : Trig K) (dt : K) (h : Heap K)
    (R d fuel : Nat) (hroot : (h R).m_pParent = none) (hw : WellFormed h d R)
    (hf : d < fuel) :
    ∃ h', update T dt fuel h R = some h' ∧
      (h' R).getLocalToWorldMatrix = (h' R).m_pLocalTransformMatrix ∧
      ∀ N P, InTree h R N → (h N).m_pParent = some P →
        (h' N).m_pParent = some P ∧
        (h' N).getLocalToWorldMatrix =
          (h' P).getLocalToWorldMatrix * (h' N).m_pLocalTransformMatrix := by
  obtain ⟨h', e, s, _, upd⟩ := update_spec T dt d fuel h R hw hf
  have upd' := upd (fun P hP => by rw [hroot] at hP; cases hP)
  refine ⟨h', e, ?_, ?_⟩
  · have hu := upd' R InTree.root
    unfold Updated at hu
    rw [updateTransforms_eq] at hu
    have hpar : (h' R).m_pParent = none := by rw [s.parent]; exact hroot
    have e1 := congrArg GameObject.m_pLocalToWorldMatrix hu
    have e2 := congrArg GameObject.m_pLocalTransformMatrix hu
    simp only [worldOf, hpar] at e1 e2
    show (h' R).m_pLocalToWorldMatrix = (h' R).m_pLocalTransformMatrix
    rw [e1, e2]
  · intro N P hN hP
    have hpar : (h' N).m_pParent = some P := by rw [s.parent]; exact hP
    have hu := upd' N hN
    unfold Updated at hu
    rw [updateTransforms_eq] at hu
    have e1 := congrArg GameObject.m_pLocalToWorldMatrix hu
    have e2 := congrArg GameObject.m_pLocalTransformMatrix hu
    simp only [worldOf, hpar] at e1 e2
    refine ⟨hpar, ?_⟩
    show (h' N).m_pLocalToWorldMatrix = (h' P).getLocalToWorldMatrix * (h' N).m_pLocalTransformMatrix
    rw [e1, e2]

theorem update_world_transform_invariant_witness :
    (sampleScene 0).m_pParent = none ∧ WellFormed sampleScene 2 0 ∧
    ∃ h', update rationalTrig 0 3 sampleScene 0 = some h' ∧
      (h' 0).getLocalToWorldMatrix = (h' 0).m_pLocalTransformMatrix ∧
      ∀ N P, InTree sampleScene 0 N → (sampleScene N).m_pParent = some P →
        (h' N).m_pParent = some P ∧
        (h' N).getLocalToWorldMatrix =
          (h' P).getLocalToWorldMatrix * (h' N).m_pLocalTransformMatrix :=
  ⟨by decide, by decide,
    update_world_transform_invariant rationalTrig 0 sampleScene 0 2 3 (by decide) (by decide)
      (by decide)⟩

/-! ## Child lists -/

/-- C2: `removeChild` does not stop at the first match.  On the child list
`[1, 2, 1]` the call `removeChild(1)` erases index 0 and then, two iterations
later, the second listed `1` as well, leaving `[2]`; erasing only the first
occurrence would leave `[2, 1]`. -/
theorem removeChild_erases_second_match :
    (duplicateScene 0).m_pChildren = [1, 2, 1] ∧
    ((duplicateScene 0).removeChild (some 1)).m_pChildren = [2] ∧
    List.erase [1, 2, 1] 1 = [2, 1] := by
  decide

/-- When `rip` does not occur from index `i` on, the loop of `removeChild`
leaves the list as it is. -/
theorem removeChildLoop_absent (r : Nat) : ∀ (fuel i : Nat) (l : List Nat),
    r ∉ l.drop i → removeChildLoop (some r) fuel i l = l
  | 0, _, _, _ => rfl
  | fuel + 1, i, l, hr => by
      unfold removeChildLoop
      by_cases hi : i < l.length
      · have hd : l.drop i = l[i] :: l.drop (i + 1) := List.drop_eq_getElem_cons hi
        have hne : l[i] ≠ r := fun e => hr (by rw [hd, e]; exact List.mem_cons_self _ _)
        have hget : l.get? i = some l[i] := by
          rw [List.get?_eq_getElem?]
          exact List.getElem?_eq_getElem hi
        rw [if_pos hi, hget, if_neg (fun e => hne (Option.some.inj e))]
        refine removeChildLoop_absent r fuel (i + 1) l (fun hin => hr ?_)
        rw [hd]
        exact List.mem_cons_of_mem _ hin
      · rw [if_neg hi]

/-- When `rip` occurs at most once from index `i` on, the loop of
`removeChild` erases that occurrence and nothing else. -/
theorem removeChildLoop_unique (r : Nat) : ∀ (fuel i : Nat) (l : List Nat),
    l.length ≤ i + fuel → (l.drop i).count r ≤ 1 →
    removeChildLoop (some r) fuel i l = l.take i ++ (l.drop i).erase r
  | 0, i, l, hlen, _ => by
      have hd : l.drop i = [] := List.drop_eq_nil_of_le (by omega)
      have ht : l.take i = l := List.take_of_length_le (by omega)
      rw [hd, ht]
      simp [removeChildLoop]
  | fuel + 1, i, l, hlen, hc => by
      unfold removeChildLoop
      by_cases hi : i < l.length
      · have hd : l.drop i = l[i] :: l.drop (i + 1) := List.drop_eq_getElem_cons hi
        have hget : l.get? i = some l[i] := by
          rw [List.get?_eq_getElem?]
          exact List.getElem?_eq_getElem hi
        rw [if_pos hi, hget, hd]
        by_cases he : l[i] = r
        · rw [if_pos (by rw [he]), he, List.erase_cons_head]
          have hcnt : (l.drop (i + 1)).count r = 0 := by
            rw [hd, he, List.count_cons_self] at hc
            omega
          have hnot : r ∉ l.drop (i + 1) := List.count_eq_zero.mp hcnt
          have hidx : l.eraseIdx i = l.take i ++ l.drop (i + 1) :=
            List.eraseIdx_eq_take_drop_succ l i
          rw [removeChildLoop_absent r fuel (i + 1) (l.eraseIdx i), hidx]
          intro hin
          rw [hidx] at hin
          have hsub := List.mem_of_mem_drop hin
          rw [List.mem_append] at hsub
          rcases hsub with hsub | hsub
          · have hlt : (l.take i).length ≤ i := List.length_take_le i l
            have hdrop : (l.take i ++ l.drop (i + 1)).drop (i + 1)
                = (l.drop (i + 1)).drop (i + 1 - (l.take i).length) := by
              rw [List.drop_append_eq_append_drop, List.drop_eq_nil_of_le (by omega),
                List.nil_append]
            rw [hdrop] at hin
            exact hnot (List.mem_of_mem_drop hin)
          · exact hnot hsub
        · rw [if_neg (fun e => he (Option.some.inj e)), List.erase_cons_tail (by simpa using he)]
          have hcnt : (l.drop (i + 1)).count r ≤ 1 := by
            rw [hd, List.count_cons_of_ne (Ne.symm he)] at hc
            exact hc
          rw [removeChildLoop_unique r fuel (i + 1) l (by omega) hcnt, List.take_succ]
          rw [List.getElem?_eq_getElem hi, List.append_assoc]
          rfl
      · have hd : l.drop i = [] := List.drop_eq_nil_of_le (by omega)
        have ht : l.take i = l := List.take_of_length_le (by omega)
        rw [if_neg hi, hd, ht]
        simp

/-- A null `rip` matches no child: the loop of `removeChild` leaves the list
as it is. -/
theorem removeChildLoop_null : ∀ (fuel i : Nat) (l : List Nat),
    removeChildLoop none fuel i l = l
  | 0, _, _ => rfl
  | fuel + 1, i, l => by
      unfold removeChildLoop
      by_cases hi : i < l.length
      · have hget : l.get? i = some l[i] := by
          rw [List.get?_eq_getElem?]
          exact List.getElem?_eq_getElem hi
        rw [if_pos hi, hget, if_neg (fun e => Option.noConfusion e)]
        exact removeChildLoop_null fuel (i + 1) l
      · rw [if_neg hi]

/-- On a child list that holds `rip` at most once, `removeChild(rip)` erases
that one occurrence and keeps the other children in order; when `rip` is not a
child, or is null, the list is unchanged. -/
theorem removeChild_at_most_once (o : GameObject K) (r : Nat)
    (hc : o.m_pChildren.count r ≤ 1) :
    (o.removeChild (some r)).m_pChildren = o.m_pChildren.erase r ∧
    (r ∉ o.m_pChildren → (o.removeChild (some r)).m_pChildren = o.m_pChildren) ∧
    (o.removeChild none).m_pChildren = o.m_pChildren := by
  have key : (o.removeChild (some r)).m_pChildren = o.m_pChildren.erase r := by
    unfold GameObject.removeChild
    show removeChildLoop (some r) o.m_pChildren.length 0 o.m_pChildren = _
    rw [removeChildLoop_unique r o.m_pChildren.length 0 o.m_pChildren (by omega) (by simpa using hc)]
    simp
  exact ⟨key, fun hr => by rw [key, List.erase_of_not_mem hr],
    removeChildLoop_null o.m_pChildren.length 0 o.m_pChildren⟩

/-- C6: `addChild(child)` with a non-null `child` appends `child` once at the
end of the child list of `this`, makes `this` the parent of `child` so that
`child.isRoot()` is false, and leaves every other object as it was; with a
null `child` nothing changes. -/
theorem addChild_appends_and_sets_parent (h : Heap K) (this c : Nat) :
    ((addChild h this (some c)) this).m_pChildren = (h this).m_pChildren ++ [c] ∧
    ((addChild h this (some c)) c).m_pParent = some this ∧
    ((addChild h this (some c)) c).isRoot = false ∧
    (∀ q, q ≠ this → q ≠ c → (addChild h this (some c)) q = h q) ∧
    addChild h this none = h := by
  refine ⟨?_, ?_, ?_, ?_, rfl⟩
  · unfold addChild Heap.call GameObject.setParent
    by_cases e : this = c
    · subst e
      simp only [Function.update_same]
    · simp only [Function.update_noteq e, Function.update_same]
  · unfold addChild Heap.call GameObject.setParent
    simp only [Function.update_same]
  · unfold addChild Heap.call GameObject.setParent GameObject.isRoot
    simp only [Function.update_same]
  · intro q h1 h2
    unfold addChild Heap.call
    simp only [Function.update_noteq h2, Function.update_noteq h1]

/-! ## World position and the translation column -/

theorem translationColumn_eq_mulVec [CommRing K] (m : Mat4 K) :
    translationColumn m = vec3of (Matrix.mulVec m ![0, 0, 0, 1]) := by
  ext i
  fin_cases i <;>
    simp [translationColumn, vec3of, Matrix.mulVec, Matrix.dotProduct, Fin.sum_univ_four]

theorem vec3of_vec4of [CommRing K] (v : Vec3 K) : vec3of (vec4of v) = v := by
  ext i
  fin_cases i <;> simp [vec3of, vec4of]

theorem glmTranslate_mulVec [CommRing K] (v : Vec3 K) :
    Matrix.mulVec (glmTranslate v) ![0, 0, 0, 1] = vec4of v := by
  ext i
  fin_cases i <;>
    simp [glmTranslate, vec4of, Matrix.mulVec, Matrix.dotProduct, Fin.sum_univ_four]

theorem glmScale_mulVec [CommRing K] (v : Vec3 K) :
    Matrix.mulVec (glmScale v) ![0, 0, 0, 1] = ![0, 0, 0, 1] := by
  ext i
  fin_cases i <;>
    simp [glmScale, Matrix.mulVec, Matrix.dotProduct, Fin.sum_univ_four]

theorem glmRotate_mulVec [CommRing K] (T : Trig K) (angle : K) (axis : Vec3 K) :
    Matrix.mulVec (glmRotate T angle axis) ![0, 0, 0, 1] = ![0, 0, 0, 1] := by
  ext i
  fin_cases i <;>
    simp [glmRotate, Matrix.mulVec, Matrix.dotProduct, Fin.sum_univ_four]

/-- The fourth column of the local transform `T * R * S` is the local
position, whatever the rotation angles and the scale. -/
theorem localTransformOf_mulVec [CommRing K] (T : Trig K) (o : GameObject K) :
    Matrix.mulVec (localTransformOf T o) ![0, 0, 0, 1] = vec4of o.m_pLocalPosition := by
  unfold localTransformOf localRotationOf
  simp only [← Matrix.mulVec_mulVec, glmScale_mulVec, glmRotate_mulVec, glmTranslate_mulVec]

/-- For an object whose matrices are up to date, `getWorldPosition()` is the
fourth column of `getLocalToWorldMatrix()`. -/
theorem getWorldPosition_of_updated [CommRing K] (T : Trig K) (h : Heap K) (q : Nat)
    (hu : Updated T h q) :
    getWorldPosition h q = translationColumn (h q).getLocalToWorldMatrix := by
  unfold Updated at hu
  rw [updateTransforms_eq] at hu
  have e1 : (h q).m_pLocalToWorldMatrix = worldOf T h q :=
    congrArg GameObject.m_pLocalToWorldMatrix hu
  unfold GameObject.getLocalToWorldMatrix
  rw [translationColumn_eq_mulVec, e1]
  unfold getWorldPosition worldOf
  cases hpar : (h q).m_pParent with
  | none =>
    simp only [localTransformOf_mulVec, vec3of_vec4of]
  | some P =>
    simp only [← Matrix.mulVec_mulVec, localTransformOf_mulVec]

/-- C7 (as amended): after `update` on the root of a well-formed scene tree,
`getWorldPosition()` of every node of the tree equals the translation column
of its `getLocalToWorldMatrix()`, whatever rotation angles and scale the node
has. -/
theorem getWorldPosition_eq_translation_column [CommRing K] (T : Trig K) (dt : K)
    (h : Heap K) (R d fuel : Nat) (hroot : (h R).m_pParent = none) (hw : WellFormed h d R)
    (hf : d < fuel) :
    ∃ h', update T dt fuel h R = some h' ∧
      ∀ N, InTree h R N →
        getWorldPosition h' N = translationColumn (h' N).getLocalToWorldMatrix := by
  obtain ⟨h', e, _, _, upd⟩ := update_spec T dt d fuel h R hw hf
  have upd' := upd (fun P hP => by rw [hroot] at hP; cases hP)
  exact ⟨h', e, fun N hN => getWorldPosition_of_updated T h' N (upd' N hN)⟩

theorem getWorldPosition_eq_translation_column_witness :
    (sampleScene 0).m_pParent = none ∧ WellFormed sampleScene 2 0 ∧
    (sampleScene 3).m_pScale = 5 ∧
    ∃ h', update rationalTrig 0 3 sampleScene 0 = some h' ∧
      ∀ N, InTree sampleScene 0 N →
        getWorldPosition h' N = translationColumn (h' N).getLocalToWorldMatrix :=
  ⟨by decide, by decide, by decide,
    getWorldPosition_eq_translation_column rationalTrig 0 sampleScene 0 2 3 (by decide)
      (by decide) (by decide)⟩

/-- The claim C7 fails on a root with scale `2`, no rotation and position
`(1, 2, 3)`: after `update`, `getWorldPosition()` and the translation column of
`getLocalToWorldMatrix()` are both `(1, 2, 3)`. -/
theorem getWorldPosition_scaled_root_agrees :
    (scaledRoot 0).m_pScale = 2 ∧ (scaledRoot 0).m_pParent = none ∧
    ∃ h', update rationalTrig 0 1 scaledRoot 0 = some h' ∧
      getWorldPosition h' 0 = ![1, 2, 3] ∧
      translationColumn (h' 0).getLocalToWorldMatrix = ![1, 2, 3] := by
  refine ⟨rfl, rfl, ?_⟩
  obtain ⟨h', e, s, _, upd⟩ := update_spec rationalTrig 0 0 1 scaledRoot 0 (by decide) (by decide)
  have hu := upd (fun P hP => by cases hP) 0 InTree.root
  have hpos : getWorldPosition h' 0 = ![1, 2, 3] := by
    have hp : (h' 0).m_pParent = none := s.parent 0
    have hl : (h' 0).m_pLocalPosition = ![1, 2, 3] :=
      congrArg GameObject.m_pLocalPosition (s 0)
    unfold getWorldPosition
    rw [hp]
    exact hl
  exact ⟨h', e, hpos, by rw [← getWorldPosition_of_updated rationalTrig h' 0 hu]; exact hpos⟩

/-! ## The setters -/

theorem inTree_of_links {h h' : Heap K}
    (hc : ∀ q, (h' q).m_pChildren = (h q).m_pChildren) {p q : Nat} (hq : InTree h p q) :
    InTree h' p q := by
  induction hq with
  | root => exact InTree.root
  | child _ hmem ih => exact InTree.child ih (by rw [hc]; exact hmem)

theorem wellFormed_of_links {h h' : Heap K}
    (hp : ∀ q, (h' q).m_pParent = (h q).m_pParent)
    (hc : ∀ q, (h' q).m_pChildren = (h q).m_pChildren) :
    ∀ (d p : Nat), WellFormed h d p → WellFormed h' d p
  | 0, p, hw => by
      unfold WellFormed at hw ⊢
      rw [hc]; exact hw
  | d + 1, p, hw => by
      unfold WellFormed at hw ⊢
      intro c hcm
      rw [hc] at hcm
      exact ⟨by rw [hp]; exact (hw c hcm).1, wellFormed_of_links hp hc d c (hw c hcm).2⟩

/-- A setter writes neither a parent pointer nor a child list. -/
theorem setter_links (h : Heap K) (p : Nat) (s : Setter K) (q : Nat) :
    ((h.call p s.apply) q).m_pParent = (h q).m_pParent ∧
    ((h.call p s.apply) q).m_pChildren = (h q).m_pChildren := by
  unfold Heap.call
  by_cases e : q = p
  · subst e
    rw [Function.update_same]
    cases s <;> exact ⟨rfl, rfl⟩
  · rw [Function.update_noteq e]
    exact ⟨rfl, rfl⟩

/-- C10: each of `setPosition`, `setRotationAngleX`, `setRotationAngleY`,
`setRotationAngleZ` and `setScale` on the object at `p` replaces the one
member it stores and nothing else: the local rotation, the local transform,
the world matrix, the parent, the child list and every other object are as
before.  When `p` is a node of a well-formed tree below the root `R`, the next
`update` on `R` returns and leaves in the local transform of `p` the product
`translation * (Rz * Ry * Rx) * scale` built from the members as the setter
left them. -/
theorem setters_store_one_member [CommRing K] (T : Trig K) (dt : K) (h : Heap K)
    (p R d fuel : Nat) (s : Setter K) (hroot : (h R).m_pParent = none)
    (hw : WellFormed h d R) (hp : InTree h R p) (hf : d < fuel) :
    (match s with
      | .position v => (h.call p s.apply) p = { h p with m_pLocalPosition := v }
      | .rotationAngleX a => (h.call p s.apply) p = { h p with m_pRotX := a }
      | .rotationAngleY a => (h.call p s.apply) p = { h p with m_pRotY := a }
      | .rotationAngleZ a => (h.call p s.apply) p = { h p with m_pRotZ := a }
      | .scale k => (h.call p s.apply) p = { h p with m_pScale := k }) ∧
    ((h.call p s.apply) p).m_pLocalRotation = (h p).m_pLocalRotation ∧
    ((h.call p s.apply) p).m_pLocalTransformMatrix = (h p).m_pLocalTransformMatrix ∧
    ((h.call p s.apply) p).getLocalToWorldMatrix = (h p).getLocalToWorldMatrix ∧
    ((h.call p s.apply) p).m_pParent = (h p).m_pParent ∧
    ((h.call p s.apply) p).m_pChildren = (h p).m_pChildren ∧
    (∀ q, q ≠ p → (h.call p s.apply) q = h q) ∧
    ∃ h', update T dt fuel (h.call p s.apply) R = some h' ∧
      (h' p).m_pLocalTransformMatrix =
        glmTranslate ((h.call p s.apply) p).m_pLocalPosition *
          (glmRotate T (T.radians ((h.call p s.apply) p).m_pRotZ) ![0, 0, 1] *
            glmRotate T (T.radians ((h.call p s.apply) p).m_pRotY) ![0, 1, 0] *
            glmRotate T (T.radians ((h.call p s.apply) p).m_pRotX) ![1, 0, 0]) *
          glmScale ![((h.call p s.apply) p).m_pScale, ((h.call p s.apply) p).m_pScale,
            ((h.call p s.apply) p).m_pScale] := by
  have hself : (h.call p s.apply) p = s.apply (h p) := by
    unfold Heap.call
    rw [Function.update_same]
  refine ⟨?_, ?_, ?_, ?_, ?_, ?_, ?_, ?_⟩
  · cases s <;> exact hself
  · rw [hself]; cases s <;> rfl
  · rw [hself]; cases s <;> rfl
  · rw [hself]; cases s <;> rfl
  · rw [hself]; cases s <;> rfl
  · rw [hself]; cases s <;> rfl
  · intro q hq
    unfold Heap.call
    rw [Function.update_noteq hq]
  · have hlp := fun q => (setter_links h p s q).1
    have hlc := fun q => (setter_links h p s q).2
    have hw1 : WellFormed (h.call p s.apply) d R := wellFormed_of_links hlp hlc d R hw
    have hp1 : InTree (h.call p s.apply) R p := inTree_of_links hlc hp
    have hroot1 : ((h.call p s.apply) R).m_pParent = none := by rw [hlp]; exact hroot
    obtain ⟨h', e, sh, _, upd⟩ := update_spec T dt d fuel (h.call p s.apply) R hw1 hf
    have hu := upd (fun P hP => by rw [hroot1] at hP; cases hP) p hp1
    refine ⟨h', e, ?_⟩
    unfold Updated at hu
    rw [updateTransforms_eq] at hu
    have e2 : (h' p).m_pLocalTransformMatrix = localTransformOf T (h' p) :=
      congrArg GameObject.m_pLocalTransformMatrix hu
    have e3 : localTransformOf T (h' p) = localTransformOf T ((h.call p s.apply) p) := by
      show localTransformOf T (h' p).stored = localTransformOf T ((h.call p s.apply) p).stored
      rw [sh p]
    rw [e2, e3]
    rfl

theorem setters_store_one_member_witness :
    (sampleScene 0).m_pParent = none ∧ WellFormed sampleScene 2 0 ∧ InTree sampleScene 0 3 ∧
    ((sampleScene.call 3 (Setter.scale 7).apply) 3).m_pScale = 7 ∧
    ∃ h', update rationalTrig 0 3 (sampleScene.call 3 (Setter.scale 7).apply) 0 = some h' ∧
      (h' 3).m_pLocalTransformMatrix =
        glmTranslate ((sampleScene.call 3 (Setter.scale 7).apply) 3).m_pLocalPosition *
          (glmRotate rationalTrig
              (rationalTrig.radians ((sampleScene.call 3 (Setter.scale 7).apply) 3).m_pRotZ)
              ![0, 0, 1] *
            glmRotate rationalTrig
              (rationalTrig.radians ((sampleScene.call 3 (Setter.scale 7).apply) 3).m_pRotY)
              ![0, 1, 0] *
            glmRotate rationalTrig
              (rationalTrig.radians ((sampleScene.call 3 (Setter.scale 7).apply) 3).m_pRotX)
              ![1, 0, 0]) *
          glmScale ![((sampleScene.call 3 (Setter.scale 7).apply) 3).m_pScale,
            ((sampleScene.call 3 (Setter.scale 7).apply) 3).m_pScale,
            ((sampleScene.call 3 (Setter.scale 7).apply) 3).m_pScale] :=
  have hin : InTree sampleScene 0 3 :=
    InTree.child (InTree.child InTree.root (by decide : 1 ∈ (sampleScene 0).m_pChildren))
      (by decide : 3 ∈ (sampleScene 1).m_pChildren)
  ⟨by decide, by decide, hin, rfl,
    (setters_store_one_member rationalTrig 0 sampleScene 3 0 2 3 (Setter.scale 7) (by decide)
      (by decide) hin (by decide)).2.2.2.2.2.2.2⟩

/-! ## World rotation -/

theorem orderedProduct_append_singleton [CommRing K] (ms : List (Mat4 K)) (hms : ms ≠ [])
    (x : Mat4 K) : orderedProduct (ms ++ [x]) = orderedProduct ms * x := by
  cases ms with
  | nil => exact absurd rfl hms
  | cons m rest =>
    show (rest ++ [x]).foldl (fun acc y => acc * y) m = rest.foldl (fun acc y => acc * y) m * x
    rw [List.foldl_append]
    rfl

/-- In exact arithmetic the product taken from the left is the product of
the list. -/
theorem orderedProduct_eq_prod [CommRing K] (ms : List (Mat4 K)) :
    orderedProduct ms = ms.prod := by
  induction ms using List.reverseRecOn with
  | nil => rfl
  | append_singleton rest x ih =>
    by_cases hr : rest = []
    · subst hr
      simp [orderedProduct]
    · rw [orderedProduct_append_singleton rest hr, ih, List.prod_append, List.prod_singleton]

theorem rotationsToRoot_cons (h : Heap K) (p q : Nat) (rest : List Nat) :
    rotationsToRoot h p (q :: rest) = rotationsToRoot h q rest ++ [(h p).m_pLocalRotation] := by
  unfold rotationsToRoot
  rw [List.reverse_cons, List.map_append]
  rfl

theorem rotationsToRoot_ne_nil (h : Heap K) (p : Nat) (ups : List Nat) :
    rotationsToRoot h p ups ≠ [] := by
  unfold rotationsToRoot
  simp

/-- Along a parent chain that ends at a root, `getWorldRotation` returns with
any fuel above the number of ancestors, and its result is the product, taken
from the left, of the stored local rotations from the root down. -/
theorem getWorldRotation_chain [CommRing K] (h : Heap K) :
    ∀ (ups : List Nat) (p fuel : Nat), UpChain h p ups → ups.length < fuel →
      getWorldRotation fuel h p = some (orderedProduct (rotationsToRoot h p ups))
  | [], p, fuel, hc, hf => by
      obtain ⟨f, rfl⟩ : ∃ k, fuel = k + 1 := ⟨fuel - 1, by omega⟩
      unfold UpChain at hc
      unfold getWorldRotation
      rw [hc]
      rfl
  | q :: rest, p, fuel, hc, hf => by
      obtain ⟨f, rfl⟩ : ∃ k, fuel = k + 1 := ⟨fuel - 1, by omega⟩
      unfold UpChain at hc
      have hlen : rest.length < f := by
        simp only [List.length_cons] at hf
        omega
      unfold getWorldRotation
      rw [hc.1]
      dsimp only
      rw [getWorldRotation_chain h rest q f hc.2 hlen, rotationsToRoot_cons,
        orderedProduct_append_singleton _ (rotationsToRoot_ne_nil h q rest)]
      rfl

/-- C11: for a node `p` whose parent chain `p, a(n-1), ..., a0` ends at a root
`a0`, `getWorldRotation()` returns (with any fuel above the number of
ancestors) the ordered product
`localRotation(a0) * localRotation(a1) * ... * localRotation(p)` of the stored
local rotations, associated from the left as the recursion computes it, which
in exact arithmetic is the product of that list; for a root it returns the
node's own local rotation. -/
theorem getWorldRotation_composes_to_root [CommRing K] (h : Heap K) (p : Nat)
    (ups : List Nat) (fuel : Nat) (hc : UpChain h p ups) (hf : ups.length < fuel) :
    getWorldRotation fuel h p = some (orderedProduct (rotationsToRoot h p ups)) ∧
    orderedProduct (rotationsToRoot h p ups) = (rotationsToRoot h p ups).prod ∧
    (rotationsToRoot h p ups).length = ups.length + 1 ∧
    (ups = [] → getWorldRotation fuel h p = some (h p).m_pLocalRotation) := by
  have key := getWorldRotation_chain h ups p fuel hc hf
  refine ⟨key, orderedProduct_eq_prod _, by simp [rotationsToRoot], ?_⟩
  intro he
  subst he
  rw [key]
  rfl

theorem getWorldRotation_composes_to_root_witness :
    UpChain sampleScene 3 [1, 0] ∧
    getWorldRotation 3 sampleScene 3 =
      some (orderedProduct
        [(sampleScene 0).m_pLocalRotation, (sampleScene 1).m_pLocalRotation,
          (sampleScene 3).m_pLocalRotation]) ∧
    UpChain sampleScene 0 [] ∧
    getWorldRotation 1 sampleScene 0 = some (sampleScene 0).m_pLocalRotation :=
  ⟨by decide,
    (getWorldRotation_composes_to_root sampleScene 3 [1, 0] 3 (by decide) (by decide)).1,
    by decide,
    (getWorldRotation_composes_to_root sampleScene 0 [] 1 (by decide) (by decide)).2.2.2 rfl⟩

end SceneGraph

/-! ## The render target -/

section RenderTarget

/-- The loop of `createFrameBuffer` adds one to `numBuffers` per iteration and
leaves the other scalar members and the texture handles as they are. -/
theorem attachColourLoop_fields : ∀ (k i : Nat) (sg : FrameBufferObject × GPU),
    (attachColourLoop k i sg).1.numBuffers = sg.1.numBuffers + k ∧
    (attachColourLoop k i sg).1.numColourTex = sg.1.numColourTex ∧
    (attachColourLoop k i sg).1.handle = sg.1.handle ∧
    (attachColourLoop k i sg).1.depthTexHandle = sg.1.depthTexHandle ∧
    (attachColourLoop k i sg).1.colourTexHandles = sg.1.colourTexHandles
  | 0, _, sg => by simp [attachColourLoop]
  | k + 1, i, sg => by
      obtain ⟨a, b, c, d, e⟩ := attachColourLoop_fields k (i + 1) (attachColour i sg)
      unfold attachColourLoop
      rw [a, b, c, d, e]
      refine ⟨?_, rfl, rfl, rfl, rfl⟩
      simp only [attachColour]
      push_cast
      ring

/-- The loop of `createFrameBuffer` keeps the dimensions. -/
theorem attachColourLoop_size : ∀ (k i : Nat) (sg : FrameBufferObject × GPU),
    (attachColourLoop k i sg).1.width = sg.1.width ∧
    (attachColourLoop k i sg).1.height = sg.1.height
  | 0, _, sg => by simp [attachColourLoop]
  | k + 1, i, sg => by
      obtain ⟨a, b⟩ := attachColourLoop_size k (i + 1) (attachColour i sg)
      unfold attachColourLoop
      rw [a, b]
      exact ⟨rfl, rfl⟩

/-- The loop of `createFrameBuffer` creates and deletes nothing. -/
theorem attachColourLoop_gpu : ∀ (k i : Nat) (sg : FrameBufferObject × GPU),
    (attachColourLoop k i sg).2.textures = sg.2.textures ∧
    (attachColourLoop k i sg).2.framebuffers = sg.2.framebuffers ∧
    (attachColourLoop k i sg).2.lastTexture = sg.2.lastTexture ∧
    (attachColourLoop k i sg).2.lastFramebuffer = sg.2.lastFramebuffer
  | 0, _, sg => by simp [attachColourLoop]
  | k + 1, i, sg => by
      obtain ⟨a, b, c, d⟩ := attachColourLoop_gpu k (i + 1) (attachColour i sg)
      unfold attachColourLoop
      rw [a, b, c, d]
      exact ⟨rfl, rfl, rfl, rfl⟩

/-- The loop of `createFrameBuffer` run for `k` iterations from index `i`
writes attachment slot `j` into entry `j` for `i ≤ j < i + k`. -/
theorem attachColourLoop_attachments : ∀ (k i : Nat) (sg : FrameBufferObject × GPU) (j : Nat),
    (attachColourLoop k i sg).1.bufferAttachments j =
      if i ≤ j ∧ j < i + k then GL_COLOR_ATTACHMENT0 + j else sg.1.bufferAttachments j
  | 0, i, sg, j => by
      have hno : ¬ (i ≤ j ∧ j < i + 0) := by omega
      rw [if_neg hno]
      rfl
  | k + 1, i, sg, j => by
      unfold attachColourLoop
      rw [attachColourLoop_attachments k (i + 1) (attachColour i sg) j]
      by_cases h1 : i + 1 ≤ j ∧ j < i + 1 + k
      · have h2 : i ≤ j ∧ j < i + (k + 1) := by omega
        rw [if_pos h1, if_pos h2]
      · rw [if_neg h1]
        by_cases h3 : j = i
        · subst h3
          have h2 : j ≤ j ∧ j < j + (k + 1) := by omega
          rw [if_pos h2]
          simp [attachColour]
        · have h2 : ¬ (i ≤ j ∧ j < i + (k + 1)) := by omega
          rw [if_neg h2]
          simp [attachColour, Function.update_noteq h3]

/-- What `createFrameBuffer` leaves in the counters: the clamped request in
`numColourTex`, and `numBuffers` grown by that much. -/
theorem createFrameBuffer_counters (s : FrameBufferObject) (g : GPU) (w h n : Nat)
    (useDepth : Bool) :
    (s.createFrameBuffer g w h n useDepth).1.numColourTex = min n MAX_BUFFERS ∧
    (s.createFrameBuffer g w h n useDepth).1.numBuffers = s.numBuffers + min n MAX_BUFFERS := by
  by_cases hn : n > MAX_BUFFERS
  · have hm : min n MAX_BUFFERS = MAX_BUFFERS := by omega
    cases useDepth <;>
      simp [FrameBufferObject.createFrameBuffer, createBegin, createDepth, createFinish, hn, attachColourLoop_fields, hm]
  · have hm : min n MAX_BUFFERS = n := by omega
    cases useDepth <;>
      simp [FrameBufferObject.createFrameBuffer, createBegin, createDepth, createFinish, hn, attachColourLoop_fields, hm]

theorem firstEntries_generated (f a : Nat → Nat) (n : Nat) :
    firstEntries (fun i => if i < n then f i else a i) n = (List.range n).map f := by
  unfold firstEntries
  apply List.map_congr_left
  intro i hi
  rw [if_pos (List.mem_range.mp hi)]

/-- What `createFrameBuffer` creates on the driver, for a request within the
maximum: one framebuffer, `n` textures whose names fill the first `n` entries of
`colourTexHandles`, and one more texture for the depth attachment if asked. -/
theorem createFrameBuffer_objects (s : FrameBufferObject) (g : GPU) (w h n : Nat)
    (useDepth : Bool) (hn : n ≤ MAX_BUFFERS) :
    (s.createFrameBuffer g w h n useDepth).1.numColourTex = n ∧
    (s.createFrameBuffer g w h n useDepth).1.handle = g.lastFramebuffer + 1 ∧
    firstEntries (s.createFrameBuffer g w h n useDepth).1.colourTexHandles n = g.newTextures n ∧
    (s.createFrameBuffer g w h n useDepth).1.depthTexHandle =
      (if useDepth then g.lastTexture + n + 1 else s.depthTexHandle) ∧
    (s.createFrameBuffer g w h n useDepth).2.textures =
      g.textures ++ g.newTextures n ++ (if useDepth then [g.lastTexture + n + 1] else []) ∧
    (s.createFrameBuffer g w h n useDepth).2.framebuffers =
      g.framebuffers ++ [g.lastFramebuffer + 1] := by
  have hn' : ¬ n > MAX_BUFFERS := by omega
  cases useDepth
  · simp [FrameBufferObject.createFrameBuffer, createBegin, createDepth, createFinish, hn', attachColourLoop_fields,
      attachColourLoop_gpu, GPU.genTextures, GPU.genFramebuffer, GPU.issue,
      firstEntries_generated, GPU.newTextures, GPU.textureName, List.range_succ]
  · simp [FrameBufferObject.createFrameBuffer, createBegin, createDepth, createFinish, hn', attachColourLoop_fields,
      attachColourLoop_gpu, GPU.genTextures, GPU.genFramebuffer, GPU.issue,
      firstEntries_generated, GPU.newTextures, GPU.textureName, List.range_succ]

/-- The textures and framebuffers left live by `destroy`. -/
theorem destroy_objects (s : FrameBufferObject) (g : GPU) :
    (s.destroy g).2.textures =
      (g.textures.filter
          (fun t => !(firstEntries s.colourTexHandles s.numColourTex).contains t)).filter
        (fun t => !(if s.depthTexHandle > 0 then [s.depthTexHandle] else []).contains t) ∧
    (s.destroy g).2.framebuffers =
      g.framebuffers.filter (fun f => !(if s.handle ≠ 0 then [s.handle] else []).contains f) := by
  unfold FrameBufferObject.destroy
  rcases Nat.eq_zero_or_pos s.numColourTex with h1 | h1 <;>
    by_cases h2 : s.depthTexHandle > 0 <;> by_cases h3 : s.handle = 0 <;>
    simp [h1, h2, h3, GPU.deleteTextures, GPU.deleteFramebuffers, firstEntries]

theorem filter_not_contains_of_lt (A N : List Nat) (L : Nat) (hA : ∀ t ∈ A, t ≤ L)
    (hN : ∀ t ∈ N, L < t) : A.filter (fun t => !N.contains t) = A := by
  rw [List.filter_eq_self]
  intro a ha
  have : a ∉ N := fun hin => by have := hN a hin; have := hA a ha; omega
  simp [this]

theorem filter_not_contains_self (N : List Nat) : N.filter (fun t => !N.contains t) = [] := by
  rw [List.filter_eq_nil_iff]
  intro a ha
  simp [ha]

/-- C8: on a freshly constructed target and a driver whose live names are
consistent, `createFrameBuffer(w, h, n, useDepth)` with `n ≤ 16` creates
exactly `n` colour textures (pairwise distinct, new, non-zero, held in the
first `n` entries of `colourTexHandles`), one depth texture when `useDepth` is
true and none when it is false, and one framebuffer; a following `destroy()`
deletes every one of them and leaves the driver with the live textures and
framebuffers it had before the creation. -/
theorem create_destroy_lifecycle (mem : FrameBufferObject) (g : GPU) (w h n : Nat)
    (useDepth : Bool) (hg : g.Consistent) (hn : n ≤ MAX_BUFFERS) :
    (mem.construct.createFrameBuffer g w h n useDepth).2.textures =
      g.textures ++
        firstEntries (mem.construct.createFrameBuffer g w h n useDepth).1.colourTexHandles n ++
        (if useDepth then [(mem.construct.createFrameBuffer g w h n useDepth).1.depthTexHandle]
          else []) ∧
    (firstEntries (mem.construct.createFrameBuffer g w h n useDepth).1.colourTexHandles n).length
      = n ∧
    (firstEntries (mem.construct.createFrameBuffer g w h n useDepth).1.colourTexHandles n ++
        (if useDepth then [(mem.construct.createFrameBuffer g w h n useDepth).1.depthTexHandle]
          else [])).Nodup ∧
    (∀ t ∈ firstEntries (mem.construct.createFrameBuffer g w h n useDepth).1.colourTexHandles n ++
        (if useDepth then [(mem.construct.createFrameBuffer g w h n useDepth).1.depthTexHandle]
          else []), t ∉ g.textures ∧ t ≠ 0) ∧
    (mem.construct.createFrameBuffer g w h n useDepth).2.framebuffers =
      g.framebuffers ++ [(mem.construct.createFrameBuffer g w h n useDepth).1.handle] ∧
    (mem.construct.createFrameBuffer g w h n useDepth).1.handle ∉ g.framebuffers ∧
    (((mem.construct.createFrameBuffer g w h n useDepth).1.destroy
        (mem.construct.createFrameBuffer g w h n useDepth).2).2.textures = g.textures) ∧
    (((mem.construct.createFrameBuffer g w h n useDepth).1.destroy
        (mem.construct.createFrameBuffer g w h n useDepth).2).2.framebuffers = g.framebuffers) := by
  obtain ⟨c1, c2, c3, c4, c5, c6⟩ :=
    createFrameBuffer_objects mem.construct g w h n useDepth hn
  obtain ⟨d1, d2⟩ := destroy_objects (mem.construct.createFrameBuffer g w h n useDepth).1
    (mem.construct.createFrameBuffer g w h n useDepth).2
  have hdepth0 : mem.construct.depthTexHandle = 0 := rfl
  rw [d1, d2, c1, c2, c3, c4, c5, c6, hdepth0]
  have hN : ∀ t ∈ g.newTextures n, g.lastTexture < t ∧ t ≤ g.lastTexture + n := by
    intro t ht
    simp only [GPU.newTextures, GPU.textureName, List.mem_map, List.mem_range] at ht
    obtain ⟨i, hi, rfl⟩ := ht
    omega
  have hNd : (g.newTextures n).Nodup := by
    unfold GPU.newTextures
    refine List.Nodup.map ?_ (List.nodup_range n)
    intro a b hab
    simp only [GPU.textureName] at hab
    omega
  have hlen : (g.newTextures n).length = n := by simp [GPU.newTextures]
  have hfb : g.lastFramebuffer + 1 ∉ g.framebuffers := fun hin => by
    have := hg.2 _ hin
    omega
  have hfilt : (g.framebuffers ++ [g.lastFramebuffer + 1]).filter
      (fun f => !(if g.lastFramebuffer + 1 ≠ 0 then [g.lastFramebuffer + 1] else []).contains f)
      = g.framebuffers := by
    have hne : g.lastFramebuffer + 1 ≠ 0 := by omega
    rw [if_pos hne, List.filter_append, filter_not_contains_self, List.append_nil]
    exact filter_not_contains_of_lt _ _ g.lastFramebuffer hg.2 (by
      intro t ht
      rw [List.mem_singleton] at ht
      omega)
  have hkeep : g.textures.filter (fun t => !(g.newTextures n).contains t) = g.textures :=
    filter_not_contains_of_lt _ _ g.lastTexture hg.1 (fun t ht => (hN t ht).1)
  cases useDepth
  · simp only [Bool.false_eq_true, if_false, List.append_nil]
    refine ⟨trivial, hlen, hNd, ?_, trivial, hfb, ?_, hfilt⟩
    · intro t ht
      refine ⟨fun hin => ?_, ?_⟩
      · have := hg.1 t hin
        have := (hN t ht).1
        omega
      · have := (hN t ht).1
        omega
    · rw [List.filter_append, filter_not_contains_self, List.append_nil, hkeep]
      simp
  · simp only [if_true]
    have hD : g.lastTexture + n + 1 ∉ g.newTextures n := fun hin => by
      have := (hN _ hin).2
      omega
    refine ⟨trivial, hlen, ?_, ?_, trivial, hfb, ?_, hfilt⟩
    · rw [List.nodup_append]
      refine ⟨hNd, List.nodup_singleton _, ?_⟩
      intro a ha hb
      rw [List.mem_singleton] at hb
      exact hD (hb ▸ ha)
    · intro t ht
      rw [List.mem_append, List.mem_singleton] at ht
      have hlt : g.lastTexture < t := by
        rcases ht with ht | ht
        · exact (hN t ht).1
        · omega
      refine ⟨fun hin => ?_, by omega⟩
      have := hg.1 t hin
      omega
    · have hpos : g.lastTexture + n + 1 > 0 := by omega
      have h1 : [g.lastTexture + n + 1].filter (fun t => !(g.newTextures n).contains t)
          = [g.lastTexture + n + 1] := by
        rw [List.filter_eq_self]
        intro a ha
        rw [List.mem_singleton] at ha
        subst ha
        simp [hD]
      have inner : (g.textures ++ g.newTextures n ++ [g.lastTexture + n + 1]).filter
          (fun t => !(g.newTextures n).contains t) = g.textures ++ [g.lastTexture + n + 1] := by
        rw [List.filter_append, List.filter_append, filter_not_contains_self,
          List.append_nil, hkeep, h1]
      rw [if_pos hpos, inner, List.filter_append, filter_not_contains_self, List.append_nil]
      exact filter_not_contains_of_lt _ _ g.lastTexture hg.1 (by
        intro t ht
        rw [List.mem_singleton] at ht
        omega)

theorem create_destroy_lifecycle_witness :
    GPU.initial.Consistent ∧ 2 ≤ MAX_BUFFERS ∧
    createdTarget.2.textures =
      [] ++ firstEntries createdTarget.1.colourTexHandles 2 ++ [createdTarget.1.depthTexHandle] ∧
    (firstEntries createdTarget.1.colourTexHandles 2).length = 2 ∧
    destroyedOnce.2.textures = [] ∧ destroyedOnce.2.framebuffers = [] ∧
    firstEntries createdTarget.1.colourTexHandles 2 = [1, 2] ∧
    createdTarget.1.depthTexHandle = 3 ∧ createdTarget.2.framebuffers = [1] := by
  have hw := create_destroy_lifecycle zeroStorage GPU.initial 256 256 2 true
    (by decide) (by decide)
  exact ⟨by decide, by decide, hw.1, hw.2.1, hw.2.2.2.2.2.2.1, hw.2.2.2.2.2.2.2,
    by decide, by decide, by decide⟩

/-- The calls issued by the loop of `createFrameBuffer`. -/
theorem attachColourLoop_calls : ∀ (k i : Nat) (sg : FrameBufferObject × GPU),
    (attachColourLoop k i sg).2.calls =
      sg.2.calls ++ loopCalls sg.1.colourTexHandles sg.1.width sg.1.height k i
  | 0, _, sg => by simp [attachColourLoop, loopCalls]
  | k + 1, i, sg => by
      unfold attachColourLoop
      rw [attachColourLoop_calls k (i + 1) (attachColour i sg)]
      simp [attachColour, GPU.issue, loopCalls]

/-- The loop of `createFrameBuffer` makes one colour attachment per iteration. -/
theorem loopCalls_colourAttach (handles : Nat → Nat) (w h : Nat) : ∀ (k i : Nat),
    i + k ≤ MAX_BUFFERS →
    ((loopCalls handles w h k i).filter GLCall.isColourAttach).length = k
  | 0, _, _ => rfl
  | k + 1, i, hik => by
      have hi : i < MAX_BUFFERS := by omega
      unfold loopCalls
      rw [List.filter_append, List.length_append, loopCalls_colourAttach handles w h k (i + 1) (by omega)]
      simp [List.filter, GLCall.isColourAttach, hi]
      omega

/-- The loop of `createFrameBuffer` releases nothing. -/
theorem loopCalls_no_release (handles : Nat → Nat) (w h : Nat) : ∀ (k i : Nat),
    ∀ c ∈ loopCalls handles w h k i, c.isRelease = false
  | 0, _, c, hc => absurd hc (List.not_mem_nil c)
  | k + 1, i, c, hc => by
      unfold loopCalls at hc
      rw [List.mem_append] at hc
      rcases hc with hc | hc
      · simp only [List.mem_cons, List.mem_singleton, List.not_mem_nil, or_false] at hc
        rcases hc with rfl | rfl | rfl | rfl | rfl <;> rfl
      · exact loopCalls_no_release handles w h k (i + 1) c hc

theorem createBegin_numColourTex (s : FrameBufferObject) (g : GPU) (w h n : Nat) :
    (createBegin s g w h n).1.numColourTex = min n MAX_BUFFERS := by
  by_cases hn : n > MAX_BUFFERS
  · have hm : min n MAX_BUFFERS = MAX_BUFFERS := by omega
    simp [createBegin, hn, hm]
  · have hm : min n MAX_BUFFERS = n := by omega
    simp [createBegin, hn, hm]

theorem createBegin_fields (s : FrameBufferObject) (g : GPU) (w h n : Nat) :
    (createBegin s g w h n).2.lastTexture = g.lastTexture + min n MAX_BUFFERS ∧
    (createBegin s g w h n).1.width = w ∧ (createBegin s g w h n).1.height = h := by
  refine ⟨?_, ?_, ?_⟩
  · rw [← createBegin_numColourTex s g w h n]
    simp [createBegin, GPU.genTextures, GPU.genFramebuffer, GPU.issue]
  · simp only [createBegin]
    split <;> rfl
  · simp only [createBegin]
    split <;> rfl

/-- The calls `createFrameBuffer` issues: after those made before, a
sequence with one colour attachment per created colour texture and no
release, then `glDrawBuffers` with the `numBuffers` member, the completeness
check and the unbind. -/
theorem createFrameBuffer_calls (s : FrameBufferObject) (g : GPU) (w h n : Nat)
    (useDepth : Bool) :
    ∃ cs, (s.createFrameBuffer g w h n useDepth).2.calls =
        g.calls ++ cs ++
          [.drawBuffers (s.createFrameBuffer g w h n useDepth).1.numBuffers
              (firstEntries (s.createFrameBuffer g w h n useDepth).1.bufferAttachments MAX_BUFFERS),
            .checkFramebufferStatus, .bindFramebuffer 0] ∧
      (cs.filter GLCall.isColourAttach).length = min n MAX_BUFFERS ∧
      ∀ c ∈ cs, c.isRelease = false := by
  have hb : (createBegin s g w h n).2.calls =
      g.calls ++ [.genFramebuffers (g.lastFramebuffer + 1),
        .bindFramebuffer (g.lastFramebuffer + 1),
        .genTextures (g.newTextures (min n MAX_BUFFERS))] := by
    rw [← createBegin_numColourTex s g w h n]
    simp [createBegin, GPU.genTextures, GPU.genFramebuffer, GPU.issue, GPU.newTextures,
      GPU.textureName]
  have hl := loopCalls_colourAttach (createBegin s g w h n).1.colourTexHandles
    (createBegin s g w h n).1.width (createBegin s g w h n).1.height
    (min n MAX_BUFFERS) 0 (by omega)
  have hr := loopCalls_no_release (createBegin s g w h n).1.colourTexHandles
    (createBegin s g w h n).1.width (createBegin s g w h n).1.height
    (min n MAX_BUFFERS) 0
  cases useDepth
  · refine ⟨[.genFramebuffers (g.lastFramebuffer + 1),
        .bindFramebuffer (g.lastFramebuffer + 1),
        .genTextures (g.newTextures (min n MAX_BUFFERS))] ++
        loopCalls (createBegin s g w h n).1.colourTexHandles (createBegin s g w h n).1.width
          (createBegin s g w h n).1.height (min n MAX_BUFFERS) 0, ?_, ?_, ?_⟩
    · simp [FrameBufferObject.createFrameBuffer, createFinish, GPU.issue,
        attachColourLoop_calls, hb, createBegin_numColourTex]
    · rw [List.filter_append, List.length_append, hl]
      simp [List.filter, GLCall.isColourAttach]
    · intro c hc
      rw [List.mem_append] at hc
      rcases hc with hc | hc
      · simp only [List.mem_cons, List.mem_singleton, List.not_mem_nil, or_false] at hc
        rcases hc with rfl | rfl | rfl <;> rfl
      · exact hr c hc
  · refine ⟨[.genFramebuffers (g.lastFramebuffer + 1),
        .bindFramebuffer (g.lastFramebuffer + 1),
        .genTextures (g.newTextures (min n MAX_BUFFERS))] ++
        loopCalls (createBegin s g w h n).1.colourTexHandles (createBegin s g w h n).1.width
          (createBegin s g w h n).1.height (min n MAX_BUFFERS) 0 ++
        [.genTextures [g.lastTexture + min n MAX_BUFFERS + 1],
          .bindTexture (g.lastTexture + min n MAX_BUFFERS + 1),
          .texImage2D true w h, .texParameteri, .texParameteri,
          .framebufferTexture2D GL_DEPTH_ATTACHMENT (g.lastTexture + min n MAX_BUFFERS + 1)],
        ?_, ?_, ?_⟩
    · simp [FrameBufferObject.createFrameBuffer, createFinish, createDepth, GPU.issue,
        attachColourLoop_calls, attachColourLoop_gpu, attachColourLoop_fields, hb,
        createBegin_numColourTex, GPU.genTextures, GPU.newTextures, GPU.textureName,
        List.range_succ, createBegin_fields, attachColourLoop_size]
    · rw [List.filter_append, List.filter_append, List.length_append, List.length_append, hl]
      simp [List.filter, GLCall.isColourAttach, GL_DEPTH_ATTACHMENT, GL_COLOR_ATTACHMENT0,
        MAX_BUFFERS]
    · intro c hc
      rw [List.mem_append, List.mem_append] at hc
      rcases hc with (hc | hc) | hc
      · simp only [List.mem_cons, List.mem_singleton, List.not_mem_nil, or_false] at hc
        rcases hc with rfl | rfl | rfl <;> rfl
      · exact hr c hc
      · simp only [List.mem_cons, List.mem_singleton, List.not_mem_nil, or_false] at hc
        rcases hc with rfl | rfl | rfl | rfl | rfl | rfl <;> rfl

/-- C4: on a freshly constructed target `createFrameBuffer(w, h, n, useDepth)`
always returns, with `min(n, 16)` in `numColourTex` and in `numBuffers`; it
makes exactly `min(n, 16)` colour attachments, fills `bufferAttachments[i]`
with slot `i` for every `i` below that number, and passes that number to
`glDrawBuffers`.  For `n = 20` the number is `16`. -/
theorem createFrameBuffer_clamps_attachments (mem : FrameBufferObject) (g : GPU)
    (w h n : Nat) (useDepth : Bool) :
    (mem.construct.createFrameBuffer g w h n useDepth).1.numColourTex = min n 16 ∧
    (mem.construct.createFrameBuffer g w h n useDepth).1.numBuffers = ((min n 16 : Nat) : Int) ∧
    (∀ i, i < min n 16 →
      (mem.construct.createFrameBuffer g w h n useDepth).1.bufferAttachments i
        = GL_COLOR_ATTACHMENT0 + i) ∧
    (∃ cs, (mem.construct.createFrameBuffer g w h n useDepth).2.calls =
        g.calls ++ cs ++
          [.drawBuffers ((min n 16 : Nat) : Int)
              (firstEntries (mem.construct.createFrameBuffer g w h n useDepth).1.bufferAttachments
                MAX_BUFFERS),
            .checkFramebufferStatus, .bindFramebuffer 0] ∧
        (cs.filter GLCall.isColourAttach).length = min n 16) ∧
    (mem.construct.createFrameBuffer g w h 20 useDepth).1.numBuffers = 16 := by
  have hc := createFrameBuffer_counters mem.construct g w h n useDepth
  have hc20 := createFrameBuffer_counters mem.construct g w h 20 useDepth
  have h0 : mem.construct.numBuffers = 0 := rfl
  have hM : MAX_BUFFERS = 16 := rfl
  rw [h0] at hc hc20
  refine ⟨hc.1, by rw [hc.2]; simp [MAX_BUFFERS], ?_, ?_, by rw [hc20.2]; rfl⟩
  · intro i hi
    by_cases hn : n > MAX_BUFFERS
    · have hi' : i < MAX_BUFFERS := by omega
      cases useDepth <;>
        simp [FrameBufferObject.createFrameBuffer, createBegin, createDepth, createFinish, hn, attachColourLoop_attachments, hi']
    · have hi' : i < n := by omega
      cases useDepth <;>
        simp [FrameBufferObject.createFrameBuffer, createBegin, createDepth, createFinish, hn, attachColourLoop_attachments, hi']
  · obtain ⟨cs, e, l, _⟩ := createFrameBuffer_calls mem.construct g w h n useDepth
    refine ⟨cs, ?_, l⟩
    rw [e, hc.2]
    simp [MAX_BUFFERS]

/-- A second `destroy()` right after a first one leaves the members as they
are and deletes no texture, but deletes the framebuffer handle once more
whenever that handle is not zero: `destroy` never resets `handle`. -/
theorem destroy_again (s : FrameBufferObject) (g : GPU) :
    (s.destroy g).1.destroy (s.destroy g).2 =
      ((s.destroy g).1,
        if s.handle ≠ 0 then (s.destroy g).2.deleteFramebuffers [s.handle] else (s.destroy g).2) := by
  unfold FrameBufferObject.destroy
  by_cases h1 : s.numColourTex > 0 <;> by_cases h2 : s.depthTexHandle > 0 <;>
    by_cases h3 : s.handle = 0 <;> simp [h1, h2, h3]

/-- The call `destroy()` leaves `numBuffers` as it is. -/
theorem destroy_numBuffers (s : FrameBufferObject) (g : GPU) :
    (s.destroy g).1.numBuffers = s.numBuffers := by
  unfold FrameBufferObject.destroy
  by_cases h1 : s.numColourTex > 0 <;> by_cases h2 : s.depthTexHandle > 0 <;>
    by_cases h3 : s.handle = 0 <;> simp [h1, h2, h3]

/-- The call `destroy()` on a target that was only constructed deletes no texture; it
deletes a framebuffer exactly when the storage the constructor ran on held a
non-zero `handle`, which the constructor does not overwrite. -/
theorem destroy_after_construct (mem : FrameBufferObject) (g : GPU) :
    mem.construct.destroy g =
      (mem.construct, if mem.handle ≠ 0 then g.deleteFramebuffers [mem.handle] else g) := by
  unfold FrameBufferObject.destroy FrameBufferObject.construct
  by_cases h3 : mem.handle = 0 <;> simp [h3]

/-- C3: `destroy()` is not idempotent on the driver.  After
`createFrameBuffer(256, 256, 2, true)` and one `destroy()` the member `handle`
still holds the deleted framebuffer name `1`, and a second `destroy()` issues
`glDeleteFramebuffers` on it once more (the textures are not deleted again). -/
theorem destroy_twice_deletes_framebuffer_again :
    destroyedOnce.1.handle = 1 ∧ destroyedOnce.2.framebuffers = [] ∧
    destroyedTwice.2.calls = destroyedOnce.2.calls ++ [.deleteFramebuffers [1]] ∧
    destroyedTwice.2.calls.filter GLCall.isRelease =
      [.deleteTextures [1, 2], .deleteTextures [3], .deleteFramebuffers [1],
        .deleteFramebuffers [1]] := by
  decide

/-- C5: `numBuffers` is never reset.  After `createFrameBuffer`, `destroy`,
`createFrameBuffer`, each creation asking for two colour attachments, the
target has `numColourTex = 2` but `numBuffers = 4`, and the second creation
passes `4` to `glDrawBuffers` with only entries 0 and 1 of `bufferAttachments`
naming an attachment slot. -/
theorem recreate_declares_too_many_draw_buffers :
    recreatedTarget.1.numColourTex = 2 ∧ recreatedTarget.1.numBuffers = 4 ∧
    recreatedTarget.2.calls.drop (recreatedTarget.2.calls.length - 3) =
      [.drawBuffers 4 [36064, 36065, 0, 0, 0, 0, 0, 0, 0, 0, 0, 0, 0, 0, 0, 0],
        .checkFramebufferStatus, .bindFramebuffer 0] := by
  decide

/-- C9: the constructor leaves `handle` as it finds it.  On storage whose
`handle` word holds `7`, `destroy()` on the merely constructed target issues
`glDeleteFramebuffers` on the name `7`. -/
theorem destroy_never_created_deletes_stale_handle :
    staleHandleTarget.handle = 7 ∧ staleHandleTarget.numColourTex = 0 ∧
    staleHandleTarget.depthTexHandle = 0 ∧
    (staleHandleTarget.destroy GPU.initial).2.calls = [.deleteFramebuffers [7]] := by
  decide

end RenderTarget

end Tutorial2

